import Mathlib

/-!
Verification model of the HeatStandard backend reconciliation and dispatch core.

The definitions below are a shallow embedding of the Python source:
UUID primary keys are modelled as `Nat` values allocated from a counter,
SQLAlchemy tables as lists of rows, and each CRUD/service function as a
pure Lean function mirroring the corresponding Python function statement
by statement.  Sources embedded here:

* `app/crud/product.py`   (`upsert_product`, `mark_missing_products_inactive`)
* `app/crud/group.py`     (`upsert_group` and helpers)
* `app/api/v1/products.py` (`sync_products`, group-hierarchy passes)
* `app/services/iiko_service.py` (`_get_access_token`, `send_order_to_iiko`)
* `app/crud/order.py`     (`update_order`, `update_order_iiko_id`)
* `app/models/order.py`   (`OrderStatus`)
-/

namespace HeatStandard

/-! ### Flat-entity model: products (`app/models/product.py`, `app/schemas/product.py`) -/

/-- The dictionary of product fields built by `sync_products` and passed to
`upsert_product` (`app/api/v1/products.py`, `product_data = {...}`).
`price` models the numeric column, `organization_id`/`group_id` the UUID
foreign keys. -/
structure ProductData where
  iiko_id : String
  name_uz : String
  name_ru : String
  name_en : String
  description_uz : Option String
  description_ru : Option String
  description_en : Option String
  price : Int
  images : List String
  organization_id : Nat
  group_id : Option Nat
deriving DecidableEq, Repr

/-- A row of the `products` table (`app/models/product.py`). -/
structure LocalProduct where
  id : Nat
  iiko_id : String
  name_uz : String
  name_ru : String
  name_en : String
  description_uz : Option String
  description_ru : Option String
  description_en : Option String
  price : Int
  images : List String
  organization_id : Nat
  group_id : Option Nat
  is_active : Bool
deriving DecidableEq, Repr

/-- The `products` table plus the primary-key allocator. -/
structure ProductDB where
  rows : List LocalProduct
  nextId : Nat
deriving DecidableEq, Repr

/-- `get_product_by_iiko_id` (`app/crud/product.py`): first row matching the
external id. -/
def get_product_by_iiko_id (db : ProductDB) (iiko_id : String) : Option LocalProduct :=
  db.rows.find? (fun p => p.iiko_id == iiko_id)

/-- The update branch of `upsert_product`: every key of the incoming dict is
written onto the existing row (the dict has no `id` and no `is_active` key),
except that an empty incoming image list does not overwrite a non-empty
existing image list. -/
def applyProductUpdate (existing : LocalProduct) (d : ProductData) : LocalProduct :=
  { existing with
    iiko_id := d.iiko_id
    name_uz := d.name_uz
    name_ru := d.name_ru
    name_en := d.name_en
    description_uz := d.description_uz
    description_ru := d.description_ru
    description_en := d.description_en
    price := d.price
    images := if d.images.isEmpty && !existing.images.isEmpty then existing.images else d.images
    organization_id := d.organization_id
    group_id := d.group_id }

/-- The create branch of `upsert_product` via `create_product`
(`app/crud/product.py`): a fresh row, `is_active` defaulting to true. -/
def newProductRow (id : Nat) (d : ProductData) : LocalProduct :=
  { id := id
    iiko_id := d.iiko_id
    name_uz := d.name_uz
    name_ru := d.name_ru
    name_en := d.name_en
    description_uz := d.description_uz
    description_ru := d.description_ru
    description_en := d.description_en
    price := d.price
    images := d.images
    organization_id := d.organization_id
    group_id := d.group_id
    is_active := true }

/-- `upsert_product` (`app/crud/product.py`): look up by external id; update
the found row in place, or insert a new row with a fresh primary key. -/
def upsert_product (db : ProductDB) (d : ProductData) : LocalProduct × ProductDB :=
  match get_product_by_iiko_id db d.iiko_id with
  | some existing =>
      let updated := applyProductUpdate existing d
      (updated,
        { db with rows := db.rows.map (fun p => if p.id == existing.id then updated else p) })
  | none =>
      let row := newProductRow db.nextId d
      (row, { rows := db.rows ++ [row], nextId := db.nextId + 1 })

/-- `mark_missing_products_inactive` (`app/crud/product.py`): the bulk
`UPDATE products SET is_active = false WHERE organization_id = :org AND
iiko_id NOT IN :active AND is_active = true`. -/
def mark_missing_products_inactive (db : ProductDB) (organization_id : Nat)
    (active_iiko_ids : List String) : ProductDB :=
  { db with rows := db.rows.map (fun p =>
      if p.organization_id == organization_id
          && !(active_iiko_ids.contains p.iiko_id) && p.is_active
      then { p with is_active := false }
      else p) }

/-! ### Order model (`app/models/order.py`, `app/crud/order.py`) -/

/-- `OrderStatus` (`app/models/order.py`): the enumeration as declared in the
source has exactly these three members. -/
inductive OrderStatus where
  | pending
  | confirmed
  | declined
deriving DecidableEq, Repr

/-- A row of the `orders` table (`app/models/order.py`), with the
DB-managed audit timestamps (`created_at`/`updated_at`) outside the model. -/
structure OrderRec where
  id : Nat
  order_number : Nat
  iiko_order_id : Option String
  organization_id : Nat
  user_id : Option Nat
  customer_name : String
  customer_phone : String
  customer_email : Option String
  delivery_address : Option String
  total_amount : Int
  status : OrderStatus
  notes : Option String
  telegram_message_id : Option Int
deriving DecidableEq, Repr

/-- The `OrderUpdate` schema (`app/schemas/order.py`) under
`model_dump(exclude_unset=True)`: an outer `none` means the field was not
sent and is left untouched; for the nullable columns the inner option is the
stored value. -/
structure OrderUpdateData where
  status : Option OrderStatus
  notes : Option (Option String)
  telegram_message_id : Option (Option Int)
deriving DecidableEq, Repr

/-- `get_order` (`app/crud/order.py`): first row with the given primary key. -/
def get_order (db : List OrderRec) (order_id : Nat) : Option OrderRec :=
  db.find? (fun o => o.id == order_id)

/-- The `setattr` loop of `update_order`: each field present in the update
payload overwrites the row field, unconditionally. -/
def applyOrderUpdate (o : OrderRec) (u : OrderUpdateData) : OrderRec :=
  { o with
    status := u.status.getD o.status
    notes := u.notes.getD o.notes
    telegram_message_id := u.telegram_message_id.getD o.telegram_message_id }

/-- `update_order` (`app/crud/order.py`): returns the updated row (or `none`
when the order does not exist) together with the resulting table. -/
def update_order (db : List OrderRec) (order_id : Nat) (u : OrderUpdateData) :
    Option OrderRec × List OrderRec :=
  match get_order db order_id with
  | none => (none, db)
  | some o =>
      let o2 := applyOrderUpdate o u
      (some o2, db.map (fun r => if r.id == o.id then o2 else r))

/-- `update_order_iiko_id` (`app/crud/order.py`): stores the external order id
and forces the status to `confirmed`. -/
def update_order_iiko_id (db : List OrderRec) (order_id : Nat) (iiko_order_id : String) :
    Option OrderRec × List OrderRec :=
  match get_order db order_id with
  | none => (none, db)
  | some o =>
      let o2 := { o with iiko_order_id := some iiko_order_id, status := OrderStatus.confirmed }
      (some o2, db.map (fun r => if r.id == o.id then o2 else r))

/-! ### POS client token cache (`app/services/iiko_service.py`, `_get_access_token`) -/

/-- The validity window written at authentication time:
`timedelta(minutes=50)` in `_get_access_token`. -/
def tokenValidityMinutes : Nat := 50

/-- The provider's stated token expiry, from the source comment at the same
line: tokens are "typically 60 minutes". -/
def providerStatedExpiryMinutes : Nat := 60

/-- The mutable instance state `(_access_token, _token_expires_at)` of
`IikoService`; absolute instants are minutes as `Nat`. -/
structure TokenState where
  access_token : Option String
  token_expires_at : Option Nat
deriving DecidableEq, Repr

/-- Outcome of the `POST /access_token` HTTP exchange: a transport/HTTP
failure, or a 200 body whose `token` field may be absent. -/
inductive TokenFetchResult where
  | httpError (msg : String)
  | ok (body_token : Option String)
deriving DecidableEq, Repr

/-- The refresh path of `_get_access_token` (everything below the cache
check): perform the HTTP exchange, store the body's `token` field, reject a
falsy token, and record `utcnow() + 50 minutes` as the expiry.  The result is
(returned-or-raised value, new instance state, whether a network round-trip
happened). -/
def refreshAccessToken (st : TokenState) (now : Nat) (fetch : TokenFetchResult) :
    Except String String × TokenState × Bool :=
  match fetch with
  | TokenFetchResult.httpError m => (Except.error m, st, true)
  | TokenFetchResult.ok body_token =>
      let st1 := { st with access_token := body_token }
      match body_token with
      | none => (Except.error "No token in response", st1, true)
      | some t =>
          if t == "" then (Except.error "No token in response", st1, true)
          else (Except.ok t,
                { access_token := some t, token_expires_at := some (now + tokenValidityMinutes) },
                true)

/-- `_get_access_token` (`app/services/iiko_service.py`): return the cached
token without a network round-trip while `utcnow() < _token_expires_at` and
the cached token is truthy; otherwise refresh. -/
def get_access_token (st : TokenState) (now : Nat) (fetch : TokenFetchResult) :
    Except String String × TokenState × Bool :=
  match st.access_token, st.token_expires_at with
  | some tok, some exp =>
      if tok == "" then refreshAccessToken st now fetch
      else if now < exp then (Except.ok tok, st, false)
      else refreshAccessToken st now fetch
  | some tok, none =>
      let _ := tok
      refreshAccessToken st now fetch
  | none, _ => refreshAccessToken st now fetch

/-! ### Interleaving model of concurrent `_get_access_token` callers

`_get_access_token` is an `async` method with a single suspension point: the
`await client.post(...)` of the token exchange.  Each caller therefore runs
two atomic segments: (1) from entry through the cache check up to issuing the
HTTP request, and (2) from receiving the response through storing the token
and returning.  There is no lock around the check. -/

/-- Truthiness of the cache check
`if self._access_token and self._token_expires_at: if utcnow() < ...`. -/
def tokenCacheValid (st : TokenState) (now : Nat) : Bool :=
  match st.access_token, st.token_expires_at with
  | some tok, some exp => !(tok == "") && decide (now < exp)
  | _, _ => false

/-- Progress of one concurrent caller of `_get_access_token`. -/
inductive CallerPhase where
  | start
  | inflight
  | finished
deriving DecidableEq, Repr

/-- Shared state of the interleaving: the service's token cache, the (fixed)
current time, the number of authentication calls issued to the provider, and
each caller's phase. -/
structure RaceState where
  shared : TokenState
  now : Nat
  authCalls : Nat
  callers : List CallerPhase
deriving DecidableEq, Repr

/-- Run one atomic segment of caller `i` (the provider always answers with
token `"tok"`).  A caller at `start` performs the unguarded cache check and,
if the cache is invalid, issues its own authentication request; a caller
`inflight` resumes after the `await`, stores the token and finishes. -/
def raceStep (s : RaceState) (i : Nat) : RaceState :=
  match s.callers[i]? with
  | some CallerPhase.start =>
      if tokenCacheValid s.shared s.now then
        { s with callers := s.callers.set i CallerPhase.finished }
      else
        { s with callers := s.callers.set i CallerPhase.inflight, authCalls := s.authCalls + 1 }
  | some CallerPhase.inflight =>
      { s with
        shared := { access_token := some "tok",
                    token_expires_at := some (s.now + tokenValidityMinutes) },
        callers := s.callers.set i CallerPhase.finished }
  | _ => s

/-- Run a schedule: a list of caller indices, executed left to right. -/
def runSchedule (init : RaceState) (sched : List Nat) : RaceState :=
  sched.foldl raceStep init

/-! ### Order dispatch (`app/services/iiko_service.py`, `send_order_to_iiko`) -/

/-- A row of the `organizations` table (`app/models/organization.py`);
`iiko_id` is a non-null column, the empty string being the falsy case of
`not organization.iiko_id`. -/
structure OrganizationRec where
  id : Nat
  iiko_id : String
  name : String
  is_active : Bool
deriving DecidableEq, Repr

/-- A row of the `terminal_groups` table (`app/models/terminal_group.py`). -/
structure TerminalGroupRec where
  id : Nat
  iiko_id : String
  name : String
  organization_id : Nat
  is_active : Bool
deriving DecidableEq, Repr

/-- A row of the `order_items` table (`app/models/order_item.py`);
`product_id` is nullable (the product may have been deleted). -/
structure OrderItemRec where
  id : Nat
  order_id : Nat
  product_id : Option Nat
  product_name : String
  quantity : Int
  price : Int
  total : Int
deriving DecidableEq, Repr

/-- The slices of the store read by `send_order_to_iiko`. -/
structure DispatchDB where
  organizations : List OrganizationRec
  terminal_groups : List TerminalGroupRec
  products : List LocalProduct
deriving DecidableEq, Repr

/-- One element of the `items` array of the `/api/1/order/create` payload. -/
structure IikoOrderItem where
  productId : String
  type : String
  amount : Int
  comment : String
deriving DecidableEq, Repr

/-- The `/api/1/order/create` payload built by `send_order_to_iiko`
(bit-relevant fields). -/
structure IikoOrderPayload where
  organizationId : String
  terminalGroupId : String
  items : List IikoOrderItem
  customer_name : String
  customer_type : String
  phone : String
  comment : String
deriving DecidableEq, Repr

/-- The provider's `/api/1/order/create` response, reduced to the field the
caller reads: `response.get("orderInfo", {}).get("id")`. -/
structure IikoCreateOrderResponse where
  orderInfo_id : Option String
deriving DecidableEq, Repr

/-- The body of the per-item loop of `send_order_to_iiko`: look the product
up by primary key; skip the item when the product is gone or its external id
is falsy; otherwise emit the payload entry. -/
def itemToIiko (db : DispatchDB) (item : OrderItemRec) : Option IikoOrderItem :=
  match item.product_id.bind (fun pid => db.products.find? (fun p => p.id == pid)) with
  | none => none
  | some product =>
      if product.iiko_id == "" then none
      else some { productId := product.iiko_id, type := "Product",
                  amount := item.quantity, comment := "" }

/-- The `iiko_items` list accumulated by the loop, in item order. -/
def buildIikoItems (db : DispatchDB) (items : List OrderItemRec) : List IikoOrderItem :=
  items.filterMap (itemToIiko db)

/-- `send_order_to_iiko` (`app/services/iiko_service.py`): resolve the
organization, the first active terminal group, and the items; return `none`
(without calling the provider) when the organization or terminal group is
missing/lacks an external id or no item survives; otherwise call
`create_order` and extract `orderInfo.id`.  The boolean records whether the
provider's create-order endpoint was invoked. -/
def send_order_to_iiko (db : DispatchDB) (order : OrderRec) (items : List OrderItemRec)
    (provider : IikoOrderPayload → Except String IikoCreateOrderResponse) :
    Except String (Option String) × Bool :=
  match db.organizations.find? (fun o => o.id == order.organization_id) with
  | none => (Except.ok none, false)
  | some organization =>
      if organization.iiko_id == "" then (Except.ok none, false)
      else
        match db.terminal_groups.find?
            (fun t => t.organization_id == organization.id && t.is_active) with
        | none => (Except.ok none, false)
        | some terminal_group =>
            if terminal_group.iiko_id == "" then (Except.ok none, false)
            else
              let iiko_items := buildIikoItems db items
              if iiko_items.isEmpty then (Except.ok none, false)
              else
                let payload : IikoOrderPayload :=
                  { organizationId := organization.iiko_id
                    terminalGroupId := terminal_group.iiko_id
                    items := iiko_items
                    customer_name := order.customer_name
                    customer_type := "regular"
                    phone := order.customer_phone
                    comment := order.notes.getD "" }
                match provider payload with
                | Except.error e => (Except.error e, true)
                | Except.ok response => (Except.ok response.orderInfo_id, true)

/-- An order item is resolvable when some stored product carries its product
reference and a non-falsy external id (claim-level predicate used to state
which items dispatch keeps). -/
def ItemResolvable (db : DispatchDB) (item : OrderItemRec) : Prop :=
  ∃ p ∈ db.products, item.product_id = some p.id ∧ ¬p.iiko_id = ""

instance (db : DispatchDB) (item : OrderItemRec) : Decidable (ItemResolvable db item) := by
  unfold ItemResolvable; infer_instance

/-! ### Hierarchy reconciler (`app/api/v1/products.py` `sync_products` group passes,
`app/crud/group.py`) -/

/-- A remote group record as consumed by `sync_products`: the dict fields
`id`, `parent`, `deleted`, `name`, `description` (missing/null modelled as
`none`, `deleted` falsy-as-false). -/
structure RemoteGroup where
  gid : String
  parent : Option String
  deleted : Bool
  name : Option String
  description : Option String
deriving DecidableEq, Repr

/-- A row of the `groups` table (`app/models/group.py`). -/
structure LocalGroup where
  id : Nat
  iiko_id : String
  name_uz : String
  name_ru : String
  name_en : String
  description_uz : Option String
  description_ru : Option String
  description_en : Option String
  parent_group_id : Option Nat
  organization_id : Nat
  order : Int
  is_included_in_menu : Bool
  is_active : Bool
deriving DecidableEq, Repr

/-- The `groups` table plus the primary-key allocator. -/
structure GroupDB where
  rows : List LocalGroup
  nextId : Nat
deriving DecidableEq, Repr

/-- The `GroupCreate` schema (`app/schemas/group.py`). -/
structure GroupCreateData where
  iiko_id : String
  name_uz : String
  name_ru : String
  name_en : String
  description_uz : Option String
  description_ru : Option String
  description_en : Option String
  parent_group_id : Option Nat
  organization_id : Nat
  order : Int
  is_included_in_menu : Bool
  is_active : Bool
deriving DecidableEq, Repr

/-- `get_group_by_iiko_id` (`app/crud/group.py`). -/
def get_group_by_iiko_id (db : GroupDB) (iiko_id : String) : Option LocalGroup :=
  db.rows.find? (fun g => g.iiko_id == iiko_id)

/-- `create_group` (`app/crud/group.py`): insert a fresh row. -/
def create_group (db : GroupDB) (g : GroupCreateData) : LocalGroup × GroupDB :=
  let row : LocalGroup :=
    { id := db.nextId
      iiko_id := g.iiko_id
      name_uz := g.name_uz
      name_ru := g.name_ru
      name_en := g.name_en
      description_uz := g.description_uz
      description_ru := g.description_ru
      description_en := g.description_en
      parent_group_id := g.parent_group_id
      organization_id := g.organization_id
      order := g.order
      is_included_in_menu := g.is_included_in_menu
      is_active := g.is_active }
  (row, { rows := db.rows ++ [row], nextId := db.nextId + 1 })

/-- The update branch of `upsert_group` via `update_group`
(`app/crud/group.py`): the `GroupUpdate` built there sets every field except
`iiko_id` and `organization_id`, which keep their stored values. -/
def applyGroupUpdate (existing : LocalGroup) (g : GroupCreateData) : LocalGroup :=
  { existing with
    name_uz := g.name_uz
    name_ru := g.name_ru
    name_en := g.name_en
    description_uz := g.description_uz
    description_ru := g.description_ru
    description_en := g.description_en
    parent_group_id := g.parent_group_id
    order := g.order
    is_included_in_menu := g.is_included_in_menu
    is_active := g.is_active }

/-- `upsert_group` (`app/crud/group.py`): update the row found by external
id, or create a new one. -/
def upsert_group (db : GroupDB) (g : GroupCreateData) : LocalGroup × GroupDB :=
  match get_group_by_iiko_id db g.iiko_id with
  | some existing =>
      let updated := applyGroupUpdate existing g
      (updated,
        { db with rows := db.rows.map (fun r => if r.id == existing.id then updated else r) })
  | none => create_group db g

/-- Python's `value or default` on an optional string: `None` and `""` are
falsy. -/
def pyStrOr (v : Option String) (dflt : String) : String :=
  match v with
  | some s => if s == "" then dflt else s
  | none => dflt

/-- The `GroupCreate(...)` built by `sync_products` for one remote group:
all three language names from the single remote `name` (falling back to
`"Unnamed Group"`), the remote description in all three slots, and the given
resolved local parent id. -/
def groupCreateOfRemote (orgId : Nat) (g : RemoteGroup) (parent_group_id : Option Nat) :
    GroupCreateData :=
  let name := pyStrOr g.name "Unnamed Group"
  { iiko_id := g.gid
    name_uz := name
    name_ru := name
    name_en := name
    description_uz := g.description
    description_ru := g.description
    description_en := g.description
    parent_group_id := parent_group_id
    organization_id := orgId
    order := 0
    is_included_in_menu := true
    is_active := true }

/-- Lookup in the Python dict `group_id_map`. -/
def dictGet (m : List (String × Nat)) (k : String) : Option Nat :=
  (m.find? (fun kv => kv.1 == k)).map (fun kv => kv.2)

/-- Assignment `group_id_map[k] = v`: overwrite in place or append. -/
def dictInsert (m : List (String × Nat)) (k : String) (v : Nat) : List (String × Nat) :=
  if m.any (fun kv => kv.1 == k) then m.map (fun kv => if kv.1 == k then (k, v) else kv)
  else m ++ [(k, v)]

/-- Per-organization sync state: the groups table, `group_id_map`, and the
`errors` list of the response.  The source appends to `errors` only inside
`except` handlers around DB/validation calls, which are total here, so no
reachable code path of the model appends to it. -/
structure SyncSt where
  db : GroupDB
  map : List (String × Nat)
  errors : List String
deriving DecidableEq, Repr

/-- One iteration of the root-group loop of `sync_products`: skip records
flagged deleted, otherwise upsert with a null parent and record the
external-to-local id mapping. -/
def processRoot (orgId : Nat) (st : SyncSt) (g : RemoteGroup) : SyncSt :=
  if g.deleted then st
  else
    let res := upsert_group st.db (groupCreateOfRemote orgId g none)
    { st with db := res.2, map := dictInsert st.map g.gid res.1.id }

/-- The root-group loop (`for iiko_group in root_groups`). -/
def syncRoots (orgId : Nat) (roots : List RemoteGroup) (st : SyncSt) : SyncSt :=
  roots.foldl (processRoot orgId) st

/-- One pass over the remaining children (`for iiko_group in remaining`):
deleted records are skipped outright; a child whose parent external id is in
`group_id_map` is upserted with the mapped local parent; the rest are
collected into `still_remaining` in order. -/
def childPass (orgId : Nat) : List RemoteGroup → SyncSt → SyncSt × List RemoteGroup
  | [], st => (st, [])
  | g :: rest, st =>
      if g.deleted then childPass orgId rest st
      else
        match g.parent.bind (dictGet st.map) with
        | some pid =>
            let res := upsert_group st.db (groupCreateOfRemote orgId g (some pid))
            childPass orgId rest { st with db := res.2, map := dictInsert st.map g.gid res.1.id }
        | none =>
            let rec2 := childPass orgId rest st
            (rec2.1, g :: rec2.2)

/-- `max_iterations = 10` in `sync_products`. -/
def maxChildIterations : Nat := 10

/-- The `while remaining and iteration < max_iterations` loop, with the
remaining iteration budget as fuel.  Returns the state and whatever children
are still unresolved when the loop stops. -/
def childLoop (orgId : Nat) : Nat → List RemoteGroup → SyncSt → SyncSt × List RemoteGroup
  | 0, rem, st => (st, rem)
  | Nat.succ fuel, rem, st =>
      if rem.isEmpty then (st, rem)
      else
        let step := childPass orgId rem st
        childLoop orgId fuel step.2 step.1

/-- The group portion of `sync_products` for one organization: partition the
remote records by parent-null, upsert the roots, then run the bounded
multi-pass child resolution.  Children still unresolved when the loop stops
are returned as the dropped remainder — the source has no statement
recording them. -/
def sync_groups (orgId : Nat) (resto_groups : List RemoteGroup) (st : SyncSt) :
    SyncSt × List RemoteGroup :=
  let root_groups := resto_groups.filter (fun g => g.parent.isNone)
  let child_groups := resto_groups.filter (fun g => g.parent.isSome)
  let st1 := syncRoots orgId root_groups st
  childLoop orgId maxChildIterations child_groups st1

/-- The empty per-organization sync state. -/
def emptySyncSt : SyncSt := { db := { rows := [], nextId := 0 }, map := [], errors := [] }

/-- The external id stored on the row a group's parent pointer targets
(`none` for a null parent pointer or a dangling one). -/
def parentExtOf (db : GroupDB) (r : LocalGroup) : Option String :=
  r.parent_group_id.bind (fun pid =>
    (db.rows.find? (fun q => q.id == pid)).map (fun q => q.iiko_id))

/-- The final external-id-to-parent view of the groups table: `none` when no
row carries the external id, otherwise the parent row's external id (or
`none` for a root). -/
def extParentView (db : GroupDB) (ext : String) : Option (Option String) :=
  (db.rows.find? (fun r => r.iiko_id == ext)).map (parentExtOf db)

/-- The declarative parent mapping of the remote input itself: each external
id maps to its declared remote parent. -/
def canonicalParent (l : List RemoteGroup) (ext : String) : Option (Option String) :=
  (l.find? (fun g => g.gid == ext)).map (fun g => g.parent)

/-- Fuel-bounded distance from a record to its root through the remote
parent declarations: `none` when the chain leaves the input set, cycles, or
exceeds the fuel. -/
def depthAux (l : List RemoteGroup) : Nat → RemoteGroup → Option Nat
  | 0, _ => none
  | Nat.succ fuel, g =>
      match g.parent with
      | none => some 0
      | some p =>
          match l.find? (fun h => h.gid == p) with
          | none => none
          | some gp => (depthAux l fuel gp).map (fun d => d + 1)

/-- Well-formed remote group set: distinct external ids, nothing flagged
deleted, and every record within parent-distance `maxChildIterations` of a
root (which also rules out missing parents and cycles). -/
def WellFormedGroups (l : List RemoteGroup) : Prop :=
  (l.map (fun g => g.gid)).Nodup ∧
  (∀ g ∈ l, g.deleted = false) ∧
  (∀ g ∈ l, (depthAux l (maxChildIterations + 1) g).isSome)

instance (l : List RemoteGroup) : Decidable (WellFormedGroups l) := by
  unfold WellFormedGroups; infer_instance

/-! ### C4: mark-missing-inactive -/

/-- The claim-level per-row action of `markMissingInactive`: deactivate the
organization's rows outside the present set, touch nothing else. -/
def deactivateMissing (orgId : Nat) (ids : List String) (p : LocalProduct) : LocalProduct :=
  if p.organization_id = orgId ∧ p.iiko_id ∉ ids then { p with is_active := false } else p

/-- The concrete pending order used by the C10 witness. -/
def sampleOrder : OrderRec :=
  { id := 3, order_number := 10000, iiko_order_id := none, organization_id := 1,
    user_id := none, customer_name := "n", customer_phone := "p",
    customer_email := none, delivery_address := none, total_amount := 9,
    status := OrderStatus.pending, notes := none, telegram_message_id := none }

/-! ### C7: order status lifecycle (corrected) -/

/-- A concrete order already in the (claimed-terminal) `declined` state. -/
def declinedOrder : OrderRec :=
  { id := 0, order_number := 10000, iiko_order_id := none, organization_id := 0,
    user_id := none, customer_name := "a", customer_phone := "b", customer_email := none,
    delivery_address := none, total_amount := 0, status := OrderStatus.declined,
    notes := none, telegram_message_id := none }

/-! ### C9: concurrent refresh is not single-flight (corrected) -/

/-- Ten concurrent callers observing an expired cache (token expired at 100,
current time 200). -/
def raceInit10 : RaceState :=
  { shared := { access_token := some "old", token_expires_at := some 100 },
    now := 200, authCalls := 0,
    callers := List.replicate 10 CallerPhase.start }

/-- The adversarial interleaving: every caller runs its check-and-issue
segment before any caller stores a token. -/
def raceScheduleAll : List Nat := List.range 10 ++ List.range 10

/-- The fully serialized interleaving: each caller runs to completion before
the next one starts. -/
def seqSchedule10 : List Nat := (List.range 10).flatMap (fun i => [i, i])

/-! ### C3: double upsert keeps one row, last writer wins, images preserved -/

/-- Store health for the products table: distinct primary keys, distinct
external ids, keys below the allocator. -/
def WFProductDB (db : ProductDB) : Prop :=
  (db.rows.map (fun p => p.id)).Nodup ∧
  (db.rows.map (fun p => p.iiko_id)).Nodup ∧
  ∀ p ∈ db.rows, p.id < db.nextId

/-- The first incoming record of the C3 witness (brings an image list). -/
def prodR1 : ProductData :=
  { iiko_id := "P", name_uz := "a", name_ru := "a", name_en := "a",
    description_uz := none, description_ru := none, description_en := none,
    price := 1, images := ["img1"], organization_id := 0, group_id := none }

/-- The second incoming record of the C3 witness (new name, empty image
list). -/
def prodR2 : ProductData :=
  { iiko_id := "P", name_uz := "b", name_ru := "b", name_en := "b",
    description_uz := none, description_ru := none, description_en := none,
    price := 2, images := [], organization_id := 0, group_id := none }

/-- The dispatch store of the C5 witness: two stored products; item 3 of the
order references a deleted product. -/
def dispatchDBW : DispatchDB :=
  { organizations := [{ id := 1, iiko_id := "ORG", name := "o", is_active := true }],
    terminal_groups := [{ id := 4, iiko_id := "TG", name := "t",
                          organization_id := 1, is_active := true }],
    products :=
      [{ id := 11, iiko_id := "A", name_uz := "a", name_ru := "a", name_en := "a",
         description_uz := none, description_ru := none, description_en := none,
         price := 1, images := [], organization_id := 1, group_id := none,
         is_active := true },
       { id := 12, iiko_id := "B", name_uz := "b", name_ru := "b", name_en := "b",
         description_uz := none, description_ru := none, description_en := none,
         price := 2, images := [], organization_id := 1, group_id := none,
         is_active := true }] }

/-- The three order items of the C5 witness (the third one's product_id
points at a deleted product). -/
def dispatchItemsW : List OrderItemRec :=
  [{ id := 0, order_id := 3, product_id := some 11, product_name := "a",
     quantity := 2, price := 1, total := 2 },
   { id := 1, order_id := 3, product_id := some 12, product_name := "b",
     quantity := 1, price := 2, total := 2 },
   { id := 2, order_id := 3, product_id := some 99, product_name := "gone",
     quantity := 5, price := 3, total := 15 }]

/-- The orphan child of the C2 witnesses: its parent `"zz"` appears nowhere. -/
def orphanChild : RemoteGroup :=
  { gid := "c", parent := some "zz", deleted := false, name := some "c", description := none }

/-- A root record accompanying the orphan. -/
def plainRoot : RemoteGroup :=
  { gid := "r", parent := none, deleted := false, name := some "r", description := none }

/-! ### C1: order independence of the multi-pass resolution (corrected)

The invariant-based correctness proof: starting the per-organization sync on
an empty store with a well-formed input, every record ends up as exactly one
row whose parent pointer targets the row of its declared remote parent. -/

/-- Invariant of the per-organization sync state relative to the remote
input `l`: fresh keys stay below the allocator, primary keys and external
ids are distinct, `group_id_map` mirrors the rows exactly, and every row is
sound — it stems from an input record and its parent pointer is either null
(for a root record) or targets a row carrying the declared remote parent's
external id. -/
structure GInv (l : List RemoteGroup) (st : SyncSt) : Prop where
  next_bound : ∀ r ∈ st.db.rows, r.id < st.db.nextId
  ids_nodup : (st.db.rows.map (fun r => r.id)).Nodup
  gids_nodup : (st.db.rows.map (fun r => r.iiko_id)).Nodup
  map_eq : st.map = st.db.rows.map (fun r => (r.iiko_id, r.id))
  rows_sound : ∀ r ∈ st.db.rows, ∃ g ∈ l, r.iiko_id = g.gid ∧
      ((g.parent = none ∧ r.parent_group_id = none) ∨
       (∃ p, g.parent = some p ∧
         ∃ rp ∈ st.db.rows, rp.iiko_id = p ∧ r.parent_group_id = some rp.id))

/-- The state after the resolved-child branch of one pass iteration: upsert
with the mapped local parent and record the new external-to-local mapping
(the body of the `parent_iiko_id in group_id_map` branch of `sync_products`). -/
def resolveStep (orgId : Nat) (st : SyncSt) (h : RemoteGroup) (pid : Nat) : SyncSt :=
  { st with
    db := (upsert_group st.db (groupCreateOfRemote orgId h (some pid))).2,
    map := dictInsert st.map h.gid
      (upsert_group st.db (groupCreateOfRemote orgId h (some pid))).1.id }

/-- The root record of the C1 witness scenario. -/
def groupG1 : RemoteGroup :=
  { gid := "g1", parent := none, deleted := false, name := some "g1", description := none }

/-- The child record of the C1 witness scenario, listed before its parent. -/
def groupG2 : RemoteGroup :=
  { gid := "g2", parent := some "g1", deleted := false, name := some "g2",
    description := none }

/-- The `i`-th link of the depth-11 chain used by the C1 counterexample. -/
def chainChild (i : Nat) : RemoteGroup :=
  { gid := "c" ++ toString i,
    parent := some (if i = 1 then "r" else "c" ++ toString (i - 1)),
    deleted := false, name := none, description := none }

/-- The chain in dependency order: the root, then `c1 … c11`. -/
def chainDep : List RemoteGroup :=
  plainRoot :: (List.range 11).map (fun i => chainChild (i + 1))

/-- The same records with the children reversed: `c11 … c1` after the root. -/
def chainRev : List RemoteGroup :=
  plainRoot :: ((List.range 11).map (fun i => chainChild (i + 1))).reverse

/-! ### Shared list infrastructure -/

/-- In a list whose keys are distinct, `find?` by key returns the (unique)
member carrying that key. -/
theorem find?_key_unique {α β : Type} [BEq β] [LawfulBEq β] (key : α → β) {l : List α}
    (hnd : (l.map key).Nodup) {a : α} (ha : a ∈ l) {k : β} (hk : key a = k) :
    l.find? (fun x => key x == k) = some a := by
  induction l with
  | nil => cases ha
  | cons b t ih =>
      simp only [List.map_cons, List.nodup_cons] at hnd
      rcases List.mem_cons.mp ha with rfl | hat
      · simp [List.find?_cons, hk]
      · have hbk : ¬key b = k := by
          intro hbk
          exact hnd.1 (by simpa [hk ▸ hbk] using List.mem_map_of_mem key hat)
        rw [List.find?_cons_of_neg _ (by simpa using hbk)]
        exact ih hnd.2 hat

/-- In a list whose keys are distinct, filtering by a key held by a member
yields exactly that member. -/
theorem filter_key_unique {α β : Type} [BEq β] [LawfulBEq β] (key : α → β) {l : List α}
    (hnd : (l.map key).Nodup) {a : α} (ha : a ∈ l) {k : β} (hk : key a = k) :
    l.filter (fun x => key x == k) = [a] := by
  induction l with
  | nil => cases ha
  | cons b t ih =>
      simp only [List.map_cons, List.nodup_cons] at hnd
      rcases List.mem_cons.mp ha with rfl | hat
      · have ht : t.filter (fun x => key x == k) = [] := by
          rw [List.filter_eq_nil_iff]
          intro x hx hxk
          exact hnd.1 (by simpa [hk ▸ (eq_of_beq hxk)] using List.mem_map_of_mem key hx)
        simp [List.filter_cons, hk, ht]
      · have hbk : ¬key b = k := by
          intro hbk
          exact hnd.1 (by simpa [hk ▸ hbk] using List.mem_map_of_mem key hat)
        simp only [List.filter_cons]
        rw [if_neg (by simpa using hbk)]
        exact ih hnd.2 hat

/-- If no member carries the key, `find?` by key fails. -/
theorem find?_key_none {α β : Type} [BEq β] [LawfulBEq β] (key : α → β) {l : List α}
    {k : β} (h : ∀ a ∈ l, ¬key a = k) :
    l.find? (fun x => key x == k) = none := by
  rw [List.find?_eq_none]
  intro a ha
  simpa using h a ha

/-- C4: `mark_missing_products_inactive` acts row-wise as `deactivateMissing`:
it deactivates exactly the organization's rows whose external id is absent
from `active_iiko_ids`, leaves rows whose external id is present and rows of
other organizations untouched (their whole record, activity flag included),
and is idempotent. -/
theorem mark_missing_products_inactive_spec (db : ProductDB) (orgId : Nat)
    (ids : List String) :
    ((mark_missing_products_inactive db orgId ids).rows
        = db.rows.map (deactivateMissing orgId ids)) ∧
    (∀ p ∈ db.rows, p.organization_id = orgId → p.iiko_id ∉ ids →
        { p with is_active := false } ∈ (mark_missing_products_inactive db orgId ids).rows) ∧
    (∀ p ∈ db.rows, p.iiko_id ∈ ids ∨ ¬p.organization_id = orgId →
        p ∈ (mark_missing_products_inactive db orgId ids).rows) ∧
    (mark_missing_products_inactive (mark_missing_products_inactive db orgId ids) orgId ids
        = mark_missing_products_inactive db orgId ids) := by
  have hrow : ∀ p : LocalProduct,
      (if p.organization_id == orgId && !(ids.contains p.iiko_id) && p.is_active
        then { p with is_active := false } else p) = deactivateMissing orgId ids p := by
    intro p
    unfold deactivateMissing
    by_cases horg : p.organization_id = orgId
    · by_cases hmem : p.iiko_id ∈ ids
      · simp [horg, hmem]
      · by_cases hact : p.is_active
        · simp [horg, hmem, hact]
        · have hact' : p.is_active = false := by simpa using hact
          have hpe : ({ p with is_active := false } : LocalProduct) = p := by
            cases p
            simp_all
          rw [if_neg (by simp [hact']), if_pos ⟨horg, hmem⟩, hpe]
    · simp [horg]
  have hmain : (mark_missing_products_inactive db orgId ids).rows
      = db.rows.map (deactivateMissing orgId ids) := by
    unfold mark_missing_products_inactive
    exact List.map_congr_left (fun p _ => hrow p)
  refine ⟨hmain, ?_, ?_, ?_⟩
  · intro p hp horg hmem
    rw [hmain]
    have : deactivateMissing orgId ids p = { p with is_active := false } := by
      unfold deactivateMissing
      simp [horg, hmem]
    exact this ▸ List.mem_map_of_mem _ hp
  · intro p hp hcase
    rw [hmain]
    have : deactivateMissing orgId ids p = p := by
      unfold deactivateMissing
      rcases hcase with hmem | horg
      · by_cases horg : p.organization_id = orgId
        · simp [horg, hmem]
        · simp [horg]
      · simp [horg]
    exact this ▸ List.mem_map_of_mem _ hp
  · have h1 := hmain
    have h2 : (mark_missing_products_inactive (mark_missing_products_inactive db orgId ids)
        orgId ids).rows = (mark_missing_products_inactive db orgId ids).rows.map
          (deactivateMissing orgId ids) := by
      unfold mark_missing_products_inactive
      exact List.map_congr_left (fun p _ => hrow p)
    have hidem : ∀ p : LocalProduct,
        deactivateMissing orgId ids (deactivateMissing orgId ids p)
          = deactivateMissing orgId ids p := by
      intro p
      unfold deactivateMissing
      by_cases horg : p.organization_id = orgId
      · by_cases hmem : p.iiko_id ∈ ids
        · simp [horg, hmem]
        · simp [horg, hmem]
      · simp [horg]
    cases' hdb : mark_missing_products_inactive db orgId ids with rows2 next2
    cases' hdb2 : mark_missing_products_inactive { rows := rows2, nextId := next2 } orgId ids
      with rows3 next3
    have hnext : next3 = next2 := by
      have := congrArg ProductDB.nextId hdb2
      simpa [mark_missing_products_inactive] using this.symm
    have hrows : rows3 = rows2 := by
      have h2' := h2
      rw [hdb, hdb2] at h2'
      simp only at h2'
      rw [h2']
      have h1' := h1
      rw [hdb] at h1'
      simp only at h1'
      rw [h1', List.map_map]
      exact List.map_congr_left (fun p _ => hidem p)
    rw [hnext, hrows]

/-- C4 witness: a two-organization, three-product store; the absent external
id of organization 1 is deactivated, the present one and the foreign
organization's row are untouched, and a second run changes nothing. -/
theorem mark_missing_products_inactive_spec_witness :
    ({ id := 0, iiko_id := "keep", name_uz := "k", name_ru := "k", name_en := "k",
       description_uz := none, description_ru := none, description_en := none,
       price := 5, images := [], organization_id := 1, group_id := none,
       is_active := true : LocalProduct } ∈
      ([{ id := 0, iiko_id := "keep", name_uz := "k", name_ru := "k", name_en := "k",
          description_uz := none, description_ru := none, description_en := none,
          price := 5, images := [], organization_id := 1, group_id := none,
          is_active := true : LocalProduct },
        { id := 1, iiko_id := "gone", name_uz := "g", name_ru := "g", name_en := "g",
          description_uz := none, description_ru := none, description_en := none,
          price := 6, images := [], organization_id := 1, group_id := none,
          is_active := true : LocalProduct }] : List LocalProduct)) ∧
    ({ id := 0, iiko_id := "keep", name_uz := "k", name_ru := "k", name_en := "k",
       description_uz := none, description_ru := none, description_en := none,
       price := 5, images := [], organization_id := 1, group_id := none,
       is_active := true : LocalProduct } ∈
      (mark_missing_products_inactive
        { rows := [{ id := 0, iiko_id := "keep", name_uz := "k", name_ru := "k", name_en := "k",
                     description_uz := none, description_ru := none, description_en := none,
                     price := 5, images := [], organization_id := 1, group_id := none,
                     is_active := true },
                   { id := 1, iiko_id := "gone", name_uz := "g", name_ru := "g", name_en := "g",
                     description_uz := none, description_ru := none, description_en := none,
                     price := 6, images := [], organization_id := 1, group_id := none,
                     is_active := true }], nextId := 2 } 1 ["keep"]).rows) :=
  ⟨by decide,
   (mark_missing_products_inactive_spec
      { rows := [{ id := 0, iiko_id := "keep", name_uz := "k", name_ru := "k", name_en := "k",
                   description_uz := none, description_ru := none, description_en := none,
                   price := 5, images := [], organization_id := 1, group_id := none,
                   is_active := true },
                 { id := 1, iiko_id := "gone", name_uz := "g", name_ru := "g", name_en := "g",
                   description_uz := none, description_ru := none, description_en := none,
                   price := 6, images := [], organization_id := 1, group_id := none,
                   is_active := true }], nextId := 2 } 1 ["keep"]).2.2.1
      _ (by decide) (Or.inl (by decide))⟩

/-! ### C10: frame of `update_order_iiko_id` -/

/-- C10: recording the external order id mutates exactly the `iiko_order_id`
and `status` domain fields (the status forced to `confirmed` whatever it
was), leaves every other field of the order and every other order untouched,
and for a missing order id returns `none` and changes nothing. -/
theorem update_order_iiko_id_frame (db : List OrderRec) (oid : Nat) (iid : String) :
    (get_order db oid = none → update_order_iiko_id db oid iid = (none, db)) ∧
    (∀ o, get_order db oid = some o →
      (update_order_iiko_id db oid iid).1
          = some { o with iiko_order_id := some iid, status := OrderStatus.confirmed } ∧
      (update_order_iiko_id db oid iid).2
          = db.map (fun r => if r.id = o.id
              then { o with iiko_order_id := some iid, status := OrderStatus.confirmed }
              else r) ∧
      (∀ r ∈ db, ¬r.id = o.id → r ∈ (update_order_iiko_id db oid iid).2)) := by
  constructor
  · intro hnone
    unfold update_order_iiko_id
    rw [hnone]
  · intro o hsome
    have h1 : update_order_iiko_id db oid iid
        = (some { o with iiko_order_id := some iid, status := OrderStatus.confirmed },
           db.map (fun r => if r.id == o.id
              then { o with iiko_order_id := some iid, status := OrderStatus.confirmed }
              else r)) := by
      unfold update_order_iiko_id
      rw [hsome]
    refine ⟨by rw [h1], ?_, ?_⟩
    · rw [h1]
      simp only
      exact List.map_congr_left (fun r _ => by by_cases h : r.id = o.id <;> simp [h])
    · intro r hr hne
      rw [h1]
      simp only
      have : (if r.id == o.id
          then ({ o with iiko_order_id := some iid, status := OrderStatus.confirmed } : OrderRec)
          else r) = r := by
        simp [hne]
      exact this ▸ List.mem_map_of_mem _ hr

/-- C10 witness: a concrete one-order table; the update writes the external
id, forces `confirmed`, and returns the updated record. -/
theorem update_order_iiko_id_frame_witness :
    get_order [sampleOrder] 3 = some sampleOrder ∧
    (update_order_iiko_id [sampleOrder] 3 "EXT-9").1
        = some { sampleOrder with iiko_order_id := some "EXT-9",
                                  status := OrderStatus.confirmed } :=
  ⟨by decide,
   ((update_order_iiko_id_frame [sampleOrder] 3 "EXT-9").2 sampleOrder (by decide)).1⟩

/-- C7 counterexample: the claim says the terminal state `declined` admits no
further transition, but a single `update_order` call moves a declined order
back to `pending`. -/
theorem declined_order_status_not_terminal :
    ((update_order [declinedOrder] 0
        { status := some OrderStatus.pending, notes := none,
          telegram_message_id := none }).1.map (fun o => o.status))
      = some OrderStatus.pending ∧
    ¬((update_order [declinedOrder] 0
        { status := some OrderStatus.pending, notes := none,
          telegram_message_id := none }).2.map (fun o => o.status)
      = [OrderStatus.declined]) := by
  constructor
  · decide
  · decide

/-- C7 amended: the source's status type has exactly the three members
`pending`, `confirmed`, `declined` (none of `sent_to_iiko`, `in_progress`,
`completed`, `cancelled`, `failed` exists), and `update_order` applies any
requested status unconditionally — every state, the claimed-terminal
`declined` included, may transition to every other state, so no state is
terminal. -/
theorem order_status_machine_amended :
    (∀ s : OrderStatus,
        s = OrderStatus.pending ∨ s = OrderStatus.confirmed ∨ s = OrderStatus.declined) ∧
    (∀ (o : OrderRec) (u : OrderUpdateData) (s2 : OrderStatus), u.status = some s2 →
        (applyOrderUpdate o u).status = s2) ∧
    (∀ (db : List OrderRec) (oid : Nat) (u : OrderUpdateData) (o : OrderRec),
        get_order db oid = some o →
        ((update_order db oid u).1.map (fun r => r.status))
          = some (u.status.getD o.status)) := by
  refine ⟨fun s => by cases s <;> simp, ?_, ?_⟩
  · intro o u s2 hs
    simp [applyOrderUpdate, hs]
  · intro db oid u o hsome
    unfold update_order
    rw [hsome]
    simp [applyOrderUpdate]

/-- C7 amended witness: at the concrete declined order, the requested
`pending` status is applied unconditionally. -/
theorem order_status_machine_amended_witness :
    get_order [declinedOrder] 0
        = some declinedOrder ∧
    ((update_order [declinedOrder] 0
        { status := some OrderStatus.pending, notes := none,
          telegram_message_id := none }).1.map (fun r => r.status))
      = some OrderStatus.pending :=
  ⟨by decide,
   by
    have h := order_status_machine_amended.2.2 [declinedOrder] 0
      { status := some OrderStatus.pending, notes := none, telegram_message_id := none }
      declinedOrder (by decide)
    simpa using h⟩

/-! ### C8: token cache hit within the validity window -/

/-- Shape of the state after a successful refresh: the token and the
conservative expiry `now + 50 minutes`. -/
theorem refreshAccessToken_ok {st : TokenState} {now : Nat} {fetch : TokenFetchResult}
    {tok : String} {st2 : TokenState} {net : Bool}
    (h : refreshAccessToken st now fetch = (Except.ok tok, st2, net)) :
    st2 = { access_token := some tok,
            token_expires_at := some (now + tokenValidityMinutes) } ∧
    ¬tok = "" ∧ net = true := by
  cases fetch with
  | httpError m => simp [refreshAccessToken] at h
  | ok body_token =>
      cases body_token with
      | none => simp [refreshAccessToken] at h
      | some t =>
          by_cases ht : t = ""
          · simp [refreshAccessToken, ht] at h
          · rw [refreshAccessToken] at h
            simp only [beq_iff_eq, if_neg ht, Prod.mk.injEq] at h
            obtain ⟨h1, h2, h3⟩ := h
            cases h1
            exact ⟨h2.symm, ht, h3.symm⟩

/-- C8: after a successful authentication at time `t0` (one that performed a
network round-trip), every request at any time strictly inside the recorded
validity window returns the cached token with no network round-trip and
leaves the cache unchanged; and the validity window written at
authentication time (50 minutes) is strictly shorter than the provider's
stated token expiry (60 minutes). -/
theorem token_cache_hit_within_window (st st2 : TokenState) (t0 t : Nat)
    (fetch fetch2 : TokenFetchResult) (tok : String)
    (hauth : get_access_token st t0 fetch = (Except.ok tok, st2, true))
    (ht : t < t0 + tokenValidityMinutes) :
    get_access_token st2 t fetch2 = (Except.ok tok, st2, false) ∧
    tokenValidityMinutes < providerStatedExpiryMinutes := by
  have hrefresh : st2 = { access_token := some tok,
                          token_expires_at := some (t0 + tokenValidityMinutes) } ∧
      ¬tok = "" := by
    obtain ⟨atok, aexp⟩ := st
    cases atok with
    | none =>
        have h := refreshAccessToken_ok (by simpa [get_access_token] using hauth)
        exact ⟨h.1, h.2.1⟩
    | some cached =>
        cases aexp with
        | none =>
            have h := refreshAccessToken_ok (by simpa [get_access_token] using hauth)
            exact ⟨h.1, h.2.1⟩
        | some exp =>
            by_cases hc : cached = ""
            · have h := refreshAccessToken_ok (by simpa [get_access_token, hc] using hauth)
              exact ⟨h.1, h.2.1⟩
            · by_cases hlt : t0 < exp
              · simp [get_access_token, hc, hlt] at hauth
              · have h := refreshAccessToken_ok
                  (by simpa [get_access_token, hc, hlt] using hauth)
                exact ⟨h.1, h.2.1⟩
  obtain ⟨hst2, htok⟩ := hrefresh
  constructor
  · rw [hst2, get_access_token]
    simp only [beq_iff_eq, if_neg htok]
    rw [if_pos ht]
  · decide

/-- C8 witness: authenticating at time 0 from an empty cache with a good
response caches `"tok"`; a request at time 49 returns it without a network
round-trip. -/
theorem token_cache_hit_within_window_witness :
    get_access_token { access_token := none, token_expires_at := none } 0
        (TokenFetchResult.ok (some "tok"))
      = (Except.ok "tok",
         { access_token := some "tok", token_expires_at := some 50 }, true) ∧
    49 < 0 + tokenValidityMinutes ∧
    get_access_token { access_token := some "tok", token_expires_at := some 50 } 49
        (TokenFetchResult.httpError "down")
      = (Except.ok "tok",
         { access_token := some "tok", token_expires_at := some 50 }, false) :=
  ⟨rfl, by decide,
   by
    have h := (token_cache_hit_within_window
      { access_token := none, token_expires_at := none }
      { access_token := some "tok", token_expires_at := some 50 } 0 49
      (TokenFetchResult.ok (some "tok")) (TokenFetchResult.httpError "down") "tok"
      rfl (by decide)).1
    simpa using h⟩

/-- C9 counterexample: with the source's unguarded check-then-fetch, the
interleaving in which all ten callers pass the cache check first issues ten
authentication calls, not exactly one. -/
theorem concurrent_refresh_ten_auth_calls :
    (runSchedule raceInit10 raceScheduleAll).authCalls = 10 ∧
    ¬(runSchedule raceInit10 raceScheduleAll).authCalls = 1 := by
  constructor
  · decide
  · decide

/-- C9 amended: `_get_access_token` has no single-flight guard, so the number
of authentication calls made by ten concurrent callers over an expired cache
depends on the interleaving: the all-check-first interleaving makes one call
per caller (ten), while only a fully serialized execution makes exactly
one. -/
theorem refresh_auth_calls_schedule_dependent :
    (runSchedule raceInit10 raceScheduleAll).authCalls = 10 ∧
    (runSchedule raceInit10 seqSchedule10).authCalls = 1 := by
  constructor
  · decide
  · decide

/-- The update branch rewrites the table by primary key. -/
theorem upsert_product_update_rows {db : ProductDB} {d : ProductData} {existing : LocalProduct}
    (hfind : get_product_by_iiko_id db d.iiko_id = some existing) :
    (upsert_product db d).2.rows
      = db.rows.map (fun p => if p.id == existing.id then applyProductUpdate existing d else p)
      ∧ (upsert_product db d).2.nextId = db.nextId := by
  unfold upsert_product
  rw [hfind]
  exact ⟨rfl, rfl⟩

/-- The create branch appends a fresh row. -/
theorem upsert_product_create_rows {db : ProductDB} {d : ProductData}
    (hfind : get_product_by_iiko_id db d.iiko_id = none) :
    (upsert_product db d).2.rows = db.rows ++ [newProductRow db.nextId d]
      ∧ (upsert_product db d).2.nextId = db.nextId + 1 := by
  unfold upsert_product
  rw [hfind]
  exact ⟨rfl, rfl⟩

/-- A row found by external id carries that external id. -/
theorem get_product_by_iiko_id_key {db : ProductDB} {k : String} {p : LocalProduct}
    (h : get_product_by_iiko_id db k = some p) : p.iiko_id = k := by
  simpa using List.find?_some h

/-- A row found by external id is a member of the table. -/
theorem get_product_by_iiko_id_mem {db : ProductDB} {k : String} {p : LocalProduct}
    (h : get_product_by_iiko_id db k = some p) : p ∈ db.rows :=
  List.mem_of_find?_eq_some h

/-- Upserting preserves store health. -/
theorem upsert_product_wf {db : ProductDB} (d : ProductData) (hwf : WFProductDB db) :
    WFProductDB (upsert_product db d).2 := by
  obtain ⟨hids, hiiko, hbound⟩ := hwf
  cases hfind : get_product_by_iiko_id db d.iiko_id with
  | some existing =>
      obtain ⟨hrows, hnext⟩ := upsert_product_update_rows hfind
      have hexmem := get_product_by_iiko_id_mem hfind
      have hexkey := get_product_by_iiko_id_key hfind
      have hidframe : ∀ p ∈ db.rows,
          ((fun q => q.id) ∘
            fun p => if p.id == existing.id then applyProductUpdate existing d else p) p
              = (fun q => q.id) p := by
        intro p _
        by_cases h : p.id = existing.id
        · simp [h, applyProductUpdate]
        · simp [h]
      have hiikoframe : ∀ p ∈ db.rows,
          ((fun q => q.iiko_id) ∘
            fun p => if p.id == existing.id then applyProductUpdate existing d else p) p
              = (fun q => q.iiko_id) p := by
        intro p hp
        by_cases h : p.id = existing.id
        · have hpe : p = existing := List.inj_on_of_nodup_map hids hp hexmem h
          simp [h, applyProductUpdate, hpe, hexkey]
        · simp [h]
      refine ⟨?_, ?_, ?_⟩
      · rw [hrows, List.map_map]
        have heq : db.rows.map ((fun q => q.id) ∘
            fun p => if p.id == existing.id then applyProductUpdate existing d else p)
              = db.rows.map (fun q => q.id) :=
          List.map_congr_left hidframe
        rw [heq]
        exact hids
      · rw [hrows, List.map_map]
        have heq : db.rows.map ((fun q => q.iiko_id) ∘
            fun p => if p.id == existing.id then applyProductUpdate existing d else p)
              = db.rows.map (fun q => q.iiko_id) :=
          List.map_congr_left hiikoframe
        rw [heq]
        exact hiiko
      · intro p hp
        rw [hrows] at hp
        obtain ⟨q, hq, hqe⟩ := List.mem_map.mp hp
        rw [hnext, ← hqe]
        have := hidframe q hq
        simp only [Function.comp] at this
        rw [this]
        exact hbound q hq
  | none =>
      obtain ⟨hrows, hnext⟩ := upsert_product_create_rows hfind
      have hfresh : d.iiko_id ∉ db.rows.map (fun p => p.iiko_id) := by
        intro hmem
        obtain ⟨q, hq, hqe⟩ := List.mem_map.mp hmem
        have := List.find?_eq_none.mp hfind q hq
        simp [hqe] at this
      refine ⟨?_, ?_, ?_⟩
      · rw [hrows, List.map_append]
        rw [List.nodup_append]
        refine ⟨hids, by simp, ?_⟩
        intro x hx hx2
        simp only [List.map_cons, List.map_nil, List.mem_singleton] at hx2
        obtain ⟨q, hq, hqe⟩ := List.mem_map.mp hx
        have hlt := hbound q hq
        rw [hx2] at hqe
        simp only [newProductRow] at hqe
        omega
      · rw [hrows, List.map_append]
        rw [List.nodup_append]
        refine ⟨hiiko, by simp, ?_⟩
        intro x hx hx2
        simp only [List.map_cons, List.map_nil, List.mem_singleton] at hx2
        rw [hx2] at hx
        simp only [newProductRow] at hx
        exact hfresh hx
      · intro p hp
        rw [hrows] at hp
        rw [hnext]
        rcases List.mem_append.mp hp with hin | hnew
        · exact Nat.lt_succ_of_lt (hbound p hin)
        · simp only [List.mem_singleton] at hnew
          rw [hnew]
          simp [newProductRow]

/-- After an upsert a row carrying the incoming external id exists. -/
theorem upsert_product_mem (db : ProductDB) (d : ProductData) :
    (get_product_by_iiko_id (upsert_product db d).2 d.iiko_id).isSome := by
  rw [get_product_by_iiko_id, List.find?_isSome]
  cases hfind : get_product_by_iiko_id db d.iiko_id with
  | some existing =>
      obtain ⟨hrows, _⟩ := upsert_product_update_rows hfind
      have hexmem := get_product_by_iiko_id_mem hfind
      refine ⟨applyProductUpdate existing d, ?_, by simp [applyProductUpdate]⟩
      rw [hrows]
      have h0 := List.mem_map_of_mem
        (fun p => if p.id == existing.id then applyProductUpdate existing d else p) hexmem
      simpa using h0
  | none =>
      obtain ⟨hrows, _⟩ := upsert_product_create_rows hfind
      refine ⟨newProductRow db.nextId d, ?_, by simp [newProductRow]⟩
      rw [hrows]
      simp

/-- C3: upserting two records `r1` then `r2` with the same external id into a
healthy store leaves exactly one row carrying that id, whose non-identity
fields all equal `r2`'s values — except that when `r2`'s image list is empty
and the row existing after the first upsert has a non-empty image list, that
image list is preserved. -/
theorem upsert_product_twice_last_writer_wins (db : ProductDB) (r1 r2 : ProductData)
    (hwf : WFProductDB db) (hid : r1.iiko_id = r2.iiko_id) :
    (get_product_by_iiko_id (upsert_product db r1).2 r2.iiko_id).isSome ∧
    (∀ mid, get_product_by_iiko_id (upsert_product db r1).2 r2.iiko_id = some mid →
      ((upsert_product (upsert_product db r1).2 r2).2.rows.filter
          (fun p => p.iiko_id == r2.iiko_id)) = [applyProductUpdate mid r2] ∧
      (∀ p ∈ (upsert_product (upsert_product db r1).2 r2).2.rows,
        p.iiko_id = r2.iiko_id →
          p.name_uz = r2.name_uz ∧ p.name_ru = r2.name_ru ∧ p.name_en = r2.name_en ∧
          p.description_uz = r2.description_uz ∧ p.description_ru = r2.description_ru ∧
          p.description_en = r2.description_en ∧ p.price = r2.price ∧
          p.organization_id = r2.organization_id ∧ p.group_id = r2.group_id ∧
          p.images = (if r2.images = [] ∧ ¬mid.images = [] then mid.images
                      else r2.images))) := by
  have hwf1 : WFProductDB (upsert_product db r1).2 := upsert_product_wf r1 hwf
  constructor
  · rw [← hid]
    exact upsert_product_mem db r1
  · intro mid hmid
    obtain ⟨hids1, hiiko1, _⟩ := hwf1
    have hmidmem := get_product_by_iiko_id_mem hmid
    have hmidkey := get_product_by_iiko_id_key hmid
    obtain ⟨hrows2, _⟩ := upsert_product_update_rows hmid
    have himg : (applyProductUpdate mid r2).images
        = (if r2.images = [] ∧ ¬mid.images = [] then mid.images else r2.images) := by
      rw [applyProductUpdate]
      by_cases h1 : r2.images = []
      · by_cases h2 : mid.images = []
        · simp [h1, h2]
        · simp [h1, h2]
      · simp [h1]
    have hfilter : ((upsert_product (upsert_product db r1).2 r2).2.rows.filter
        (fun p => p.iiko_id == r2.iiko_id)) = [applyProductUpdate mid r2] := by
      rw [hrows2]
      have hiikoframe : ∀ p ∈ (upsert_product db r1).2.rows,
          ((fun q => q.iiko_id) ∘
            fun p => if p.id == mid.id then applyProductUpdate mid r2 else p) p
              = (fun q => q.iiko_id) p := by
        intro p hp
        by_cases h : p.id = mid.id
        · have hpe : p = mid := List.inj_on_of_nodup_map hids1 hp hmidmem h
          simp [h, applyProductUpdate, hpe, hmidkey]
        · simp [h]
      have hnodup2 : (((upsert_product db r1).2.rows.map
          (fun p => if p.id == mid.id then applyProductUpdate mid r2 else p)).map
            (fun q => q.iiko_id)).Nodup := by
        rw [List.map_map]
        have heq : (upsert_product db r1).2.rows.map ((fun q => q.iiko_id) ∘
            fun p => if p.id == mid.id then applyProductUpdate mid r2 else p)
              = (upsert_product db r1).2.rows.map (fun q => q.iiko_id) :=
          List.map_congr_left hiikoframe
        rw [heq]
        exact hiiko1
      have hupdmem : applyProductUpdate mid r2 ∈ (upsert_product db r1).2.rows.map
          (fun p => if p.id == mid.id then applyProductUpdate mid r2 else p) := by
        have h0 := List.mem_map_of_mem
          (fun p => if p.id == mid.id then applyProductUpdate mid r2 else p) hmidmem
        simpa using h0
      have hkey : (fun q : LocalProduct => q.iiko_id) (applyProductUpdate mid r2)
          = r2.iiko_id := by
        simp [applyProductUpdate]
      exact filter_key_unique (fun q => q.iiko_id) hnodup2 hupdmem hkey
    refine ⟨hfilter, ?_⟩
    intro p hp hpk
    have hpfilter : p ∈ ((upsert_product (upsert_product db r1).2 r2).2.rows.filter
        (fun q => q.iiko_id == r2.iiko_id)) :=
      List.mem_filter.mpr ⟨hp, by simp [hpk]⟩
    rw [hfilter] at hpfilter
    simp only [List.mem_singleton] at hpfilter
    rw [hpfilter]
    refine ⟨rfl, rfl, rfl, rfl, rfl, rfl, rfl, rfl, rfl, himg⟩

/-- C3 witness: on the empty store, `prodR1` then `prodR2` leaves exactly one
`"P"` row whose name is `prodR2`'s but whose image list is `prodR1`'s. -/
theorem upsert_product_twice_last_writer_wins_witness :
    WFProductDB { rows := [], nextId := 0 } ∧
    prodR1.iiko_id = prodR2.iiko_id ∧
    ((upsert_product (upsert_product { rows := [], nextId := 0 } prodR1).2 prodR2).2.rows.filter
        (fun p => p.iiko_id == prodR2.iiko_id))
      = [applyProductUpdate (newProductRow 0 prodR1) prodR2] := by
  have hwf0 : WFProductDB { rows := [], nextId := 0 } :=
    ⟨List.nodup_nil, List.nodup_nil, by simp⟩
  refine ⟨hwf0, rfl, ?_⟩
  exact ((upsert_product_twice_last_writer_wins { rows := [], nextId := 0 }
    prodR1 prodR2 hwf0 rfl).2 (newProductRow 0 prodR1) (by decide)).1

/-! ### C5/C6: order dispatch -/

/-- An unresolvable item contributes nothing to the payload. -/
theorem itemToIiko_of_unresolvable {db : DispatchDB} {it : OrderItemRec}
    (h : ¬ItemResolvable db it) : itemToIiko db it = none := by
  cases hpid : it.product_id with
  | none => simp [itemToIiko, hpid]
  | some pid =>
      cases hfindp : db.products.find? (fun p => p.id == pid) with
      | none => simp [itemToIiko, hpid, hfindp]
      | some product =>
          have hmem := List.mem_of_find?_eq_some hfindp
          have hpid2 : product.id = pid := by simpa using List.find?_some hfindp
          by_cases hik : product.iiko_id = ""
          · simp [itemToIiko, hpid, hfindp, hik]
          · exact absurd ⟨product, hmem, by rw [hpid, hpid2], hik⟩ h

/-- A resolvable item contributes exactly its product's external id and its
quantity. -/
theorem itemToIiko_of_resolvable {db : DispatchDB} {it : OrderItemRec} {p : LocalProduct}
    (hnd : (db.products.map (fun q => q.id)).Nodup) (hp : p ∈ db.products)
    (hpid : it.product_id = some p.id) (hik : ¬p.iiko_id = "") :
    itemToIiko db it = some { productId := p.iiko_id, type := "Product",
                              amount := it.quantity, comment := "" } := by
  rw [itemToIiko, hpid]
  have hfindp : db.products.find? (fun q => q.id == p.id) = some p :=
    find?_key_unique (fun q => q.id) hnd hp rfl
  simp only [Option.bind]
  rw [hfindp]
  simp [hik]

/-- When no item resolves, the payload item list is empty. -/
theorem buildIikoItems_eq_nil {db : DispatchDB} {items : List OrderItemRec}
    (h : ∀ it ∈ items, ¬ItemResolvable db it) : buildIikoItems db items = [] := by
  rw [buildIikoItems, List.filterMap_eq_nil_iff]
  intro it hit
  exact itemToIiko_of_unresolvable (h it hit)

/-- C6: when the order's organization is missing or has a falsy external id,
or no active terminal group of that organization has a non-falsy external
id, or no order item resolves to a stored product with an external id,
dispatch returns `none` without raising and without calling the provider's
create-order endpoint. -/
theorem send_order_guard_returns_none (db : DispatchDB) (order : OrderRec)
    (items : List OrderItemRec)
    (provider : IikoOrderPayload → Except String IikoCreateOrderResponse)
    (hfail :
      (∀ o ∈ db.organizations, o.id = order.organization_id → o.iiko_id = "") ∨
      (∀ t ∈ db.terminal_groups, t.is_active = true →
          t.organization_id = order.organization_id → t.iiko_id = "") ∨
      (∀ it ∈ items, ¬ItemResolvable db it)) :
    send_order_to_iiko db order items provider = (Except.ok none, false) := by
  cases horg : db.organizations.find? (fun o => o.id == order.organization_id) with
  | none => simp [send_order_to_iiko, horg]
  | some organization =>
      have horgmem := List.mem_of_find?_eq_some horg
      have horgid : organization.id = order.organization_id := by
        simpa using List.find?_some horg
      by_cases hoik : organization.iiko_id = ""
      · simp [send_order_to_iiko, horg, hoik]
      · rcases hfail with h1 | h2 | h3
        · exact absurd (h1 organization horgmem horgid) hoik
        · cases htg : db.terminal_groups.find?
              (fun t => t.organization_id == organization.id && t.is_active) with
          | none => simp [send_order_to_iiko, horg, hoik, htg]
          | some terminal_group =>
              have htgmem := List.mem_of_find?_eq_some htg
              have htgprops := List.find?_some htg
              simp only [Bool.and_eq_true, beq_iff_eq] at htgprops
              have htik : terminal_group.iiko_id = "" :=
                h2 terminal_group htgmem htgprops.2 (horgid ▸ htgprops.1)
              simp [send_order_to_iiko, horg, hoik, htg, htik]
        · have hnil : buildIikoItems db items = [] := buildIikoItems_eq_nil h3
          cases htg : db.terminal_groups.find?
              (fun t => t.organization_id == organization.id && t.is_active) with
          | none => simp [send_order_to_iiko, horg, hoik, htg]
          | some terminal_group =>
              by_cases htik : terminal_group.iiko_id = ""
              · simp [send_order_to_iiko, horg, hoik, htg, htik]
              · simp [send_order_to_iiko, horg, hoik, htg, htik, hnil]

/-- C6 witness: an organization with no terminal groups at all — dispatch
returns `none` and never reaches the provider. -/
theorem send_order_guard_returns_none_witness :
    send_order_to_iiko
      { organizations := [{ id := 1, iiko_id := "ORG", name := "o", is_active := true }],
        terminal_groups := [], products := [] }
      sampleOrder []
      (fun _ => Except.ok { orderInfo_id := some "X" })
      = (Except.ok none, false) :=
  send_order_guard_returns_none
    { organizations := [{ id := 1, iiko_id := "ORG", name := "o", is_active := true }],
      terminal_groups := [], products := [] }
    sampleOrder []
    (fun _ => Except.ok { orderInfo_id := some "X" })
    (Or.inr (Or.inl (by intro t ht; cases ht)))

/-- C5: with a resolvable organization and active terminal group, dispatch
skips exactly the items whose product is gone or lacks an external id, keeps
every resolvable item with its product's external id and quantity, and — when
at least one item survives and the provider answers with an order id —
returns that id after calling the endpoint. -/
theorem send_order_skips_unresolvable_items (db : DispatchDB) (order : OrderRec)
    (items : List OrderItemRec)
    (provider : IikoOrderPayload → Except String IikoCreateOrderResponse)
    (org : OrganizationRec) (tg : TerminalGroupRec) (oid : String)
    (hnd : (db.products.map (fun p => p.id)).Nodup)
    (horg : db.organizations.find? (fun o => o.id == order.organization_id) = some org)
    (hoik : ¬org.iiko_id = "")
    (htg : db.terminal_groups.find?
        (fun t => t.organization_id == org.id && t.is_active) = some tg)
    (htik : ¬tg.iiko_id = "")
    (hsome : ∃ it ∈ items, ItemResolvable db it)
    (hprov : ∀ pl, provider pl = Except.ok { orderInfo_id := some oid }) :
    (∀ it ∈ items, ¬ItemResolvable db it → itemToIiko db it = none) ∧
    (∀ it ∈ items, ∀ p ∈ db.products, it.product_id = some p.id → ¬p.iiko_id = "" →
        itemToIiko db it = some { productId := p.iiko_id, type := "Product",
                                  amount := it.quantity, comment := "" }) ∧
    send_order_to_iiko db order items provider = (Except.ok (some oid), true) := by
  refine ⟨fun it _ h => itemToIiko_of_unresolvable h,
          fun it _ p hp hpid hik => itemToIiko_of_resolvable hnd hp hpid hik, ?_⟩
  obtain ⟨it, hit, p, hp, hpid, hik⟩ := hsome
  have hitem := itemToIiko_of_resolvable hnd hp hpid hik
  have hmem : ({ productId := p.iiko_id, type := "Product",
                 amount := it.quantity, comment := "" } : IikoOrderItem)
      ∈ buildIikoItems db items :=
    List.mem_filterMap.mpr ⟨it, hit, hitem⟩
  have hne : ¬buildIikoItems db items = [] := List.ne_nil_of_mem hmem
  have hempty : (buildIikoItems db items).isEmpty = false := by
    rw [← Bool.not_eq_true, List.isEmpty_iff]
    exact hne
  simp [send_order_to_iiko, horg, hoik, htg, htik, hempty, hprov]

/-- C5 witness: the three-item order sends exactly the two resolvable items
and returns the provider's order id. -/
theorem send_order_skips_unresolvable_items_witness :
    buildIikoItems dispatchDBW dispatchItemsW
      = [{ productId := "A", type := "Product", amount := 2, comment := "" },
         { productId := "B", type := "Product", amount := 1, comment := "" }] ∧
    send_order_to_iiko dispatchDBW sampleOrder dispatchItemsW
        (fun _ => Except.ok { orderInfo_id := some "ORD-1" })
      = (Except.ok (some "ORD-1"), true) :=
  ⟨by decide,
   (send_order_skips_unresolvable_items dispatchDBW sampleOrder dispatchItemsW
      (fun _ => Except.ok { orderInfo_id := some "ORD-1" })
      { id := 1, iiko_id := "ORG", name := "o", is_active := true }
      { id := 4, iiko_id := "TG", name := "t", organization_id := 1, is_active := true }
      "ORD-1" (by decide) (by decide) (by decide) (by decide) (by decide)
      ⟨{ id := 0, order_id := 3, product_id := some 11, product_name := "a",
         quantity := 2, price := 1, total := 2 }, by decide,
        ⟨{ id := 11, iiko_id := "A", name_uz := "a", name_ru := "a", name_en := "a",
           description_uz := none, description_ru := none, description_en := none,
           price := 1, images := [], organization_id := 1, group_id := none,
           is_active := true }, by decide, by decide, by decide⟩⟩
      (fun _ => rfl)).2.2⟩

/-! ### Group-sync infrastructure -/

/-- `dictGet` skips a mismatching head entry. -/
theorem dictGet_cons_ne {a : String × Nat} {t : List (String × Nat)} {k : String}
    (h : ¬a.1 = k) : dictGet (a :: t) k = dictGet t k := by
  unfold dictGet
  rw [List.find?_cons_of_neg _ (by simpa using h)]

/-- `dictGet` stops at a matching head entry. -/
theorem dictGet_cons_eq {a : String × Nat} {t : List (String × Nat)} {k : String}
    (h : a.1 = k) : dictGet (a :: t) k = some a.2 := by
  unfold dictGet
  rw [List.find?_cons_of_pos _ (by simpa using h)]
  rfl

/-- Overwriting key `k` in place does not change any other key's binding. -/
theorem dictGet_map_overwrite_ne (m : List (String × Nat)) (k : String) (v : Nat)
    (k2 : String) (h : ¬k2 = k) :
    dictGet (m.map (fun kv => if kv.1 == k then (k, v) else kv)) k2 = dictGet m k2 := by
  induction m with
  | nil => rfl
  | cons a t ih =>
      simp only [List.map_cons]
      by_cases hak : a.1 = k
      · rw [if_pos (by simpa using hak)]
        rw [dictGet_cons_ne (fun he => h he.symm),
          dictGet_cons_ne (fun he => h (hak ▸ he).symm)]
        exact ih
      · rw [if_neg (by simpa using hak)]
        by_cases hak2 : a.1 = k2
        · rw [dictGet_cons_eq hak2, dictGet_cons_eq hak2]
        · rw [dictGet_cons_ne hak2, dictGet_cons_ne hak2]
          exact ih

/-- Overwriting key `k` in place binds `k` to the new value, provided some
entry carries `k`. -/
theorem dictGet_map_overwrite_self (m : List (String × Nat)) (k : String) (v : Nat)
    (hany : m.any (fun kv => kv.1 == k) = true) :
    dictGet (m.map (fun kv => if kv.1 == k then (k, v) else kv)) k = some v := by
  induction m with
  | nil => simp at hany
  | cons a t ih =>
      simp only [List.map_cons]
      by_cases hak : a.1 = k
      · rw [if_pos (by simpa using hak)]
        exact dictGet_cons_eq rfl
      · rw [if_neg (by simpa using hak)]
        rw [dictGet_cons_ne hak]
        have hany2 : t.any (fun kv => kv.1 == k) = true := by
          simp only [List.any_cons, Bool.or_eq_true] at hany
          rcases hany with hh | hh
          · exact absurd (by simpa using hh) hak
          · exact hh
        exact ih hany2

/-- Appending a `(k, v)` entry does not change any other key's binding. -/
theorem dictGet_append_ne (m : List (String × Nat)) (k : String) (v : Nat)
    (k2 : String) (h : ¬k2 = k) :
    dictGet (m ++ [(k, v)]) k2 = dictGet m k2 := by
  induction m with
  | nil =>
      rw [List.nil_append, dictGet_cons_ne (fun he => h he.symm)]
  | cons a t ih =>
      rw [List.cons_append]
      by_cases hak2 : a.1 = k2
      · rw [dictGet_cons_eq hak2, dictGet_cons_eq hak2]
      · rw [dictGet_cons_ne hak2, dictGet_cons_ne hak2]
        exact ih

/-- Looking up the freshly assigned key. -/
theorem dictGet_insert_self (m : List (String × Nat)) (k : String) (v : Nat) :
    dictGet (dictInsert m k v) k = some v := by
  unfold dictInsert
  by_cases hany : m.any (fun kv => kv.1 == k)
  · rw [if_pos hany]
    exact dictGet_map_overwrite_self m k v hany
  · rw [if_neg hany]
    rw [List.any_eq_true] at hany
    push_neg at hany
    induction m with
    | nil =>
        rw [List.nil_append]
        exact dictGet_cons_eq rfl
    | cons a t ih =>
        have hak : ¬a.1 = k := by
          have := hany a (List.mem_cons_self a t)
          simpa using this
        rw [List.cons_append, dictGet_cons_ne hak]
        exact ih (fun x hx => hany x (List.mem_cons_of_mem a hx))

/-- Inserting one key leaves every other key's binding unchanged. -/
theorem dictGet_insert_ne (m : List (String × Nat)) (k : String) (v : Nat) (k2 : String)
    (h : ¬k2 = k) : dictGet (dictInsert m k v) k2 = dictGet m k2 := by
  unfold dictInsert
  by_cases hany : m.any (fun kv => kv.1 == k)
  · rw [if_pos hany]
    exact dictGet_map_overwrite_ne m k v k2 h
  · rw [if_neg hany]
    exact dictGet_append_ne m k v k2 h

/-- The update branch of `upsert_group` keeps every row's external id. -/
theorem upsert_group_update_rows {db : GroupDB} {g : GroupCreateData} {existing : LocalGroup}
    (hfind : get_group_by_iiko_id db g.iiko_id = some existing) :
    (upsert_group db g).2.rows
      = db.rows.map (fun r => if r.id == existing.id then applyGroupUpdate existing g else r)
      ∧ (upsert_group db g).2.nextId = db.nextId
      ∧ (upsert_group db g).1 = applyGroupUpdate existing g := by
  unfold upsert_group
  rw [hfind]
  exact ⟨rfl, rfl, rfl⟩

/-- The create branch of `upsert_group` appends the fresh row. -/
theorem upsert_group_create_rows {db : GroupDB} {g : GroupCreateData}
    (hfind : get_group_by_iiko_id db g.iiko_id = none) :
    (upsert_group db g).2.rows = db.rows ++ [(upsert_group db g).1]
      ∧ (upsert_group db g).2.nextId = db.nextId + 1
      ∧ (upsert_group db g).1.iiko_id = g.iiko_id
      ∧ (upsert_group db g).1.id = db.nextId
      ∧ (upsert_group db g).1.parent_group_id = g.parent_group_id := by
  unfold upsert_group create_group
  rw [hfind]
  exact ⟨rfl, rfl, rfl, rfl, rfl⟩

/-- An upsert never brings an external id the store lacked and the incoming
record does not carry. -/
theorem upsert_group_keeps_out {db : GroupDB} {g : GroupCreateData} {t : String}
    (hout : ∀ r ∈ db.rows, ¬r.iiko_id = t) (hg : ¬g.iiko_id = t) :
    ∀ r ∈ (upsert_group db g).2.rows, ¬r.iiko_id = t := by
  cases hfind : get_group_by_iiko_id db g.iiko_id with
  | some existing =>
      obtain ⟨hrows, -, -⟩ := upsert_group_update_rows hfind
      intro r hr
      rw [hrows] at hr
      obtain ⟨q, hq, hqe⟩ := List.mem_map.mp hr
      by_cases h : q.id = existing.id
      · have hre : r.iiko_id = existing.iiko_id := by
          rw [← hqe]
          simp [h, applyGroupUpdate]
        rw [hre]
        exact hout existing (List.mem_of_find?_eq_some hfind)
      · have hre : r.iiko_id = q.iiko_id := by
          rw [← hqe]
          simp [h]
        rw [hre]
        exact hout q hq
  | none =>
      obtain ⟨hrows, -, hkey, -, -⟩ := upsert_group_create_rows hfind
      intro r hr
      rw [hrows] at hr
      rcases List.mem_append.mp hr with hin | hnew
      · exact hout r hin
      · simp only [List.mem_singleton] at hnew
        rw [hnew, hkey]
        exact hg

/-- No statement of the root loop touches the `errors` list. -/
theorem processRoot_errors (orgId : Nat) (st : SyncSt) (g : RemoteGroup) :
    (processRoot orgId st g).errors = st.errors := by
  unfold processRoot
  by_cases h : g.deleted <;> simp [h]

/-- The root phase leaves `errors` unchanged. -/
theorem syncRoots_errors (orgId : Nat) (roots : List RemoteGroup) (st : SyncSt) :
    (syncRoots orgId roots st).errors = st.errors := by
  induction roots generalizing st with
  | nil => rfl
  | cons g rest ih =>
      rw [syncRoots, List.foldl_cons]
      rw [show List.foldl (processRoot orgId) (processRoot orgId st g) rest
          = syncRoots orgId rest (processRoot orgId st g) from rfl]
      rw [ih, processRoot_errors]

/-- One child pass leaves `errors` unchanged. -/
theorem childPass_errors (orgId : Nat) (todo : List RemoteGroup) (st : SyncSt) :
    (childPass orgId todo st).1.errors = st.errors := by
  induction todo generalizing st with
  | nil => rfl
  | cons g rest ih =>
      simp only [childPass]
      by_cases hdel : g.deleted
      · rw [if_pos hdel]
        exact ih st
      · rw [if_neg hdel]
        cases hb : g.parent.bind (dictGet st.map) with
        | some pid => simp only; exact ih _
        | none => simp only; exact ih st

/-- The child loop leaves `errors` unchanged. -/
theorem childLoop_errors (orgId : Nat) (fuel : Nat) (rem : List RemoteGroup) (st : SyncSt) :
    (childLoop orgId fuel rem st).1.errors = st.errors := by
  induction fuel generalizing rem st with
  | zero => rfl
  | succ n ih =>
      rw [childLoop]
      by_cases hr : rem.isEmpty
      · rw [if_pos hr]
      · rw [if_neg hr]
        rw [ih, childPass_errors]

/-- The whole group sync leaves `errors` unchanged (in particular, starting
from the empty state it records nothing). -/
theorem sync_groups_errors (orgId : Nat) (l : List RemoteGroup) (st : SyncSt) :
    (sync_groups orgId l st).1.errors = st.errors := by
  unfold sync_groups
  rw [childLoop_errors, syncRoots_errors]

/-- A pass output is drawn from its input. -/
theorem childPass_rem_subset (orgId : Nat) (todo : List RemoteGroup) (st : SyncSt) :
    ∀ x ∈ (childPass orgId todo st).2, x ∈ todo := by
  induction todo generalizing st with
  | nil => intro x hx; cases hx
  | cons g rest ih =>
      simp only [childPass]
      by_cases hdel : g.deleted
      · rw [if_pos hdel]
        intro x hx
        exact List.mem_cons_of_mem g (ih st x hx)
      · rw [if_neg hdel]
        cases hb : g.parent.bind (dictGet st.map) with
        | some pid =>
            simp only
            intro x hx
            exact List.mem_cons_of_mem g (ih _ x hx)
        | none =>
            simp only
            intro x hx
            rcases List.mem_cons.mp hx with rfl | hx2
            · exact List.mem_cons_self _ _
            · exact List.mem_cons_of_mem _ (ih st x hx2)

/-- A pass never binds a key that no input record carries. -/
theorem childPass_map_keeps_out (orgId : Nat) (todo : List RemoteGroup) (st : SyncSt)
    (p : String) (hmap : dictGet st.map p = none) (hkeys : ∀ x ∈ todo, ¬x.gid = p) :
    dictGet (childPass orgId todo st).1.map p = none := by
  induction todo generalizing st with
  | nil => exact hmap
  | cons g rest ih =>
      simp only [childPass]
      by_cases hdel : g.deleted
      · rw [if_pos hdel]
        exact ih st hmap (fun x hx => hkeys x (List.mem_cons_of_mem g hx))
      · rw [if_neg hdel]
        cases hb : g.parent.bind (dictGet st.map) with
        | some pid =>
            simp only
            refine ih _ ?_ (fun x hx => hkeys x (List.mem_cons_of_mem g hx))
            simp only
            rw [dictGet_insert_ne _ _ _ _
              (fun he => hkeys g (List.mem_cons_self g rest) he.symm)]
            exact hmap
        | none =>
            simp only
            exact ih st hmap (fun x hx => hkeys x (List.mem_cons_of_mem g hx))

/-- A deferred orphan stays deferred through a whole pass. -/
theorem childPass_retains (orgId : Nat) (todo : List RemoteGroup) (st : SyncSt)
    (g : RemoteGroup) (p : String) (hg : g ∈ todo) (hgdel : g.deleted = false)
    (hpar : g.parent = some p)
    (hmap : dictGet st.map p = none) (hkeys : ∀ x ∈ todo, ¬x.gid = p) :
    g ∈ (childPass orgId todo st).2 := by
  induction todo generalizing st with
  | nil => cases hg
  | cons h rest ih =>
      simp only [childPass]
      by_cases hdel : h.deleted
      · rw [if_pos hdel]
        rcases List.mem_cons.mp hg with rfl | hg2
        · rw [hgdel] at hdel
          cases hdel
        · exact ih st hg2 hmap (fun x hx => hkeys x (List.mem_cons_of_mem h hx))
      · rw [if_neg hdel]
        cases hb : h.parent.bind (dictGet st.map) with
        | some pid =>
            simp only
            rcases List.mem_cons.mp hg with rfl | hg2
            · rw [hpar] at hb
              simp only [Option.bind] at hb
              rw [hmap] at hb
              cases hb
            · refine ih _ hg2 ?_ (fun x hx => hkeys x (List.mem_cons_of_mem h hx))
              simp only
              rw [dictGet_insert_ne _ _ _ _
                (fun he => hkeys h (List.mem_cons_self h rest) he.symm)]
              exact hmap
        | none =>
            simp only
            rcases List.mem_cons.mp hg with rfl | hg2
            · exact List.mem_cons_self g _
            · exact List.mem_cons_of_mem h
                (ih st hg2 hmap (fun x hx => hkeys x (List.mem_cons_of_mem h hx)))

/-- The root loop never writes a row whose external id no processed root
carries. -/
theorem syncRoots_keeps_out (orgId : Nat) (roots : List RemoteGroup) (st : SyncSt)
    (t : String) (hout : ∀ r ∈ st.db.rows, ¬r.iiko_id = t)
    (hkeys : ∀ x ∈ roots, ¬x.gid = t) :
    ∀ r ∈ (syncRoots orgId roots st).db.rows, ¬r.iiko_id = t := by
  induction roots generalizing st with
  | nil => exact hout
  | cons g rest ih =>
      rw [syncRoots, List.foldl_cons]
      rw [show List.foldl (processRoot orgId) (processRoot orgId st g) rest
          = syncRoots orgId rest (processRoot orgId st g) from rfl]
      refine ih (processRoot orgId st g) ?_ (fun x hx => hkeys x (List.mem_cons_of_mem g hx))
      unfold processRoot
      by_cases hdel : g.deleted
      · rw [if_pos hdel]
        exact hout
      · rw [if_neg hdel]
        exact upsert_group_keeps_out hout (hkeys g (List.mem_cons_self g rest))

/-- The root loop never binds a map key no processed root carries. -/
theorem syncRoots_map_keeps_out (orgId : Nat) (roots : List RemoteGroup) (st : SyncSt)
    (p : String) (hmap : dictGet st.map p = none)
    (hkeys : ∀ x ∈ roots, ¬x.gid = p) :
    dictGet (syncRoots orgId roots st).map p = none := by
  induction roots generalizing st with
  | nil => exact hmap
  | cons g rest ih =>
      rw [syncRoots, List.foldl_cons]
      rw [show List.foldl (processRoot orgId) (processRoot orgId st g) rest
          = syncRoots orgId rest (processRoot orgId st g) from rfl]
      refine ih (processRoot orgId st g) ?_ (fun x hx => hkeys x (List.mem_cons_of_mem g hx))
      unfold processRoot
      by_cases hdel : g.deleted
      · rw [if_pos hdel]
        exact hmap
      · rw [if_neg hdel]
        simp only
        rw [dictGet_insert_ne _ _ _ _
          (fun he => hkeys g (List.mem_cons_self g rest) he.symm)]
        exact hmap

/-- A child pass never writes a row carrying external id `t` when the only
input records carrying `t` have the permanently-unresolvable parent `p`. -/
theorem childPass_keeps_out (orgId : Nat) (todo : List RemoteGroup) (st : SyncSt)
    (t p : String) (hout : ∀ r ∈ st.db.rows, ¬r.iiko_id = t)
    (hmap : dictGet st.map p = none)
    (hkeys : ∀ x ∈ todo, ¬x.gid = p)
    (hselect : ∀ x ∈ todo, x.gid = t → x.parent = some p) :
    ∀ r ∈ (childPass orgId todo st).1.db.rows, ¬r.iiko_id = t := by
  induction todo generalizing st with
  | nil => exact hout
  | cons h rest ih =>
      simp only [childPass]
      by_cases hdel : h.deleted
      · rw [if_pos hdel]
        exact ih st hout hmap (fun x hx => hkeys x (List.mem_cons_of_mem h hx))
          (fun x hx => hselect x (List.mem_cons_of_mem h hx))
      · rw [if_neg hdel]
        cases hb : h.parent.bind (dictGet st.map) with
        | some pid =>
            simp only
            have hgid : ¬h.gid = t := by
              intro hgt
              have hp := hselect h (List.mem_cons_self h rest) hgt
              rw [hp] at hb
              simp only [Option.bind] at hb
              rw [hmap] at hb
              cases hb
            refine ih _ ?_ ?_ (fun x hx => hkeys x (List.mem_cons_of_mem h hx))
              (fun x hx => hselect x (List.mem_cons_of_mem h hx))
            · simp only
              exact upsert_group_keeps_out hout hgid
            · simp only
              rw [dictGet_insert_ne _ _ _ _
                (fun he => hkeys h (List.mem_cons_self h rest) he.symm)]
              exact hmap
        | none =>
            simp only
            exact ih st hout hmap (fun x hx => hkeys x (List.mem_cons_of_mem h hx))
              (fun x hx => hselect x (List.mem_cons_of_mem h hx))

/-- Loop version of `childPass_keeps_out`. -/
theorem childLoop_keeps_out (orgId : Nat) (fuel : Nat) (rem : List RemoteGroup) (st : SyncSt)
    (t p : String) (hout : ∀ r ∈ st.db.rows, ¬r.iiko_id = t)
    (hmap : dictGet st.map p = none)
    (hkeys : ∀ x ∈ rem, ¬x.gid = p)
    (hselect : ∀ x ∈ rem, x.gid = t → x.parent = some p) :
    ∀ r ∈ (childLoop orgId fuel rem st).1.db.rows, ¬r.iiko_id = t := by
  induction fuel generalizing rem st with
  | zero => exact hout
  | succ n ih =>
      rw [childLoop]
      by_cases hr : rem.isEmpty
      · rw [if_pos hr]
        exact hout
      · rw [if_neg hr]
        have hsub := childPass_rem_subset orgId rem st
        exact ih (childPass orgId rem st).2 (childPass orgId rem st).1
          (childPass_keeps_out orgId rem st t p hout hmap hkeys hselect)
          (childPass_map_keeps_out orgId rem st p hmap hkeys)
          (fun x hx => hkeys x (hsub x hx))
          (fun x hx => hselect x (hsub x hx))

/-- Loop version of `childPass_retains`: a never-resolvable child survives
every pass and is returned in the dropped remainder. -/
theorem childLoop_retains (orgId : Nat) (fuel : Nat) (rem : List RemoteGroup) (st : SyncSt)
    (g : RemoteGroup) (p : String) (hg : g ∈ rem) (hgdel : g.deleted = false)
    (hpar : g.parent = some p) (hmap : dictGet st.map p = none)
    (hkeys : ∀ x ∈ rem, ¬x.gid = p) :
    g ∈ (childLoop orgId fuel rem st).2 := by
  induction fuel generalizing rem st with
  | zero => exact hg
  | succ n ih =>
      rw [childLoop]
      by_cases hr : rem.isEmpty
      · rw [if_pos hr]
        exact hg
      · rw [if_neg hr]
        have hsub := childPass_rem_subset orgId rem st
        exact ih (childPass orgId rem st).2 (childPass orgId rem st).1
          (childPass_retains orgId rem st g p hg hgdel hpar hmap hkeys)
          (childPass_map_keeps_out orgId rem st p hmap hkeys)
          (fun x hx => hkeys x (hsub x hx))

/-! ### C2: orphan children (corrected) -/

/-- C2 amended: a non-deleted child whose remote parent id appears on no
input record is never upserted — starting from an empty store, no row with
its external id ever exists — it is returned in the dropped remainder after
the pass cap, and the sync completes with an empty `errors` list: nothing is
recorded about it (the source logs no warning on that path). -/
theorem orphan_child_dropped_silently (l : List RemoteGroup) (orgId : Nat)
    (g : RemoteGroup) (p : String)
    (hnd : (l.map (fun x => x.gid)).Nodup)
    (hg : g ∈ l) (hgdel : g.deleted = false) (hpar : g.parent = some p)
    (hmissing : ∀ x ∈ l, ¬x.gid = p) :
    g ∈ (sync_groups orgId l emptySyncSt).2 ∧
    (∀ r ∈ (sync_groups orgId l emptySyncSt).1.db.rows, ¬r.iiko_id = g.gid) ∧
    (sync_groups orgId l emptySyncSt).1.errors = [] := by
  have hchild : g ∈ l.filter (fun x => x.parent.isSome) :=
    List.mem_filter.mpr ⟨hg, by rw [hpar]; rfl⟩
  have hrootgid : ∀ x ∈ l.filter (fun x => x.parent.isNone), ¬x.gid = g.gid := by
    intro x hx hgt
    have hxl := (List.mem_filter.mp hx).1
    have hxroot := (List.mem_filter.mp hx).2
    have hxg : x = g := List.inj_on_of_nodup_map hnd hxl hg hgt
    rw [hxg, hpar] at hxroot
    cases hxroot
  have hrootp : ∀ x ∈ l.filter (fun x => x.parent.isNone), ¬x.gid = p :=
    fun x hx => hmissing x (List.mem_filter.mp hx).1
  have hchildp : ∀ x ∈ l.filter (fun x => x.parent.isSome), ¬x.gid = p :=
    fun x hx => hmissing x (List.mem_filter.mp hx).1
  have hselect : ∀ x ∈ l.filter (fun x => x.parent.isSome), x.gid = g.gid →
      x.parent = some p := by
    intro x hx hgt
    have hxl := (List.mem_filter.mp hx).1
    have hxg : x = g := List.inj_on_of_nodup_map hnd hxl hg hgt
    rw [hxg, hpar]
  have hmap1 : dictGet (syncRoots orgId (l.filter (fun x => x.parent.isNone))
      emptySyncSt).map p = none :=
    syncRoots_map_keeps_out orgId _ emptySyncSt p rfl hrootp
  have hout1 : ∀ r ∈ (syncRoots orgId (l.filter (fun x => x.parent.isNone))
      emptySyncSt).db.rows, ¬r.iiko_id = g.gid :=
    syncRoots_keeps_out orgId _ emptySyncSt g.gid (by intro r hr; cases hr) hrootgid
  refine ⟨?_, ?_, ?_⟩
  · unfold sync_groups
    exact childLoop_retains orgId maxChildIterations _ _ g p hchild hgdel hpar hmap1 hchildp
  · unfold sync_groups
    exact childLoop_keeps_out orgId maxChildIterations _ _ g.gid p hout1 hmap1
      hchildp hselect
  · exact sync_groups_errors orgId l emptySyncSt

/-- C2 counterexample (against the original claim's "a reconciliation
warning is recorded"): on a concrete orphan input the child is dropped, the
root alone is stored, and the `errors` list of the sync response is empty —
no warning of any kind is recorded for the dropped child. -/
theorem orphan_drop_records_no_warning :
    (sync_groups 0 [orphanChild, plainRoot] emptySyncSt).2 = [orphanChild] ∧
    ((sync_groups 0 [orphanChild, plainRoot] emptySyncSt).1.db.rows.map
        (fun r => r.iiko_id)) = ["r"] ∧
    (sync_groups 0 [orphanChild, plainRoot] emptySyncSt).1.errors = [] := by
  refine ⟨?_, ?_, ?_⟩
  · decide
  · decide
  · decide

/-- C2 witness: the amended theorem applied at the concrete orphan input. -/
theorem orphan_child_dropped_silently_witness :
    orphanChild ∈ (sync_groups 0 [orphanChild, plainRoot] emptySyncSt).2 ∧
    (sync_groups 0 [orphanChild, plainRoot] emptySyncSt).1.errors = [] := by
  have h := orphan_child_dropped_silently [orphanChild, plainRoot] 0 orphanChild "zz"
    (by decide) (by decide) (by decide) (by decide) (by decide)
  exact ⟨h.1, h.2.2⟩

/-- The invariant holds at the empty state. -/
theorem GInv_empty (l : List RemoteGroup) : GInv l emptySyncSt :=
  ⟨fun r hr => absurd hr (List.not_mem_nil r), List.nodup_nil, List.nodup_nil, rfl,
   fun r hr => absurd hr (List.not_mem_nil r)⟩

/-- Under `map_eq`, a `group_id_map` lookup is a row lookup. -/
theorem dictGet_rows {l : List RemoteGroup} {st : SyncSt} (hinv : GInv l st) (p : String) :
    dictGet st.map p
      = (st.db.rows.find? (fun r => r.iiko_id == p)).map (fun r => r.id) := by
  rw [hinv.map_eq, dictGet, List.find?_map]
  rw [Option.map_map]
  rfl

/-- Inserting an unbound key appends it. -/
theorem dictInsert_fresh {m : List (String × Nat)} {k : String} (v : Nat)
    (h : ∀ kv ∈ m, ¬kv.1 = k) : dictInsert m k v = m ++ [(k, v)] := by
  unfold dictInsert
  rw [if_neg]
  rw [List.any_eq_true]
  rintro ⟨kv, hkv, hkvk⟩
  exact h kv hkv (by simpa using hkvk)

/-- The single create step shared by the root loop and the child passes:
upserting a fresh record `g` of the input with a parent pointer that is
`none` for a root and the mapped local parent for a child preserves the
invariant and appends exactly one row carrying `g.gid`. -/
theorem upsert_step {l : List RemoteGroup} {st : SyncSt} (hinv : GInv l st)
    {g : RemoteGroup} (hgl : g ∈ l) {orgId : Nat} {pid : Option Nat}
    (hfresh : ∀ r ∈ st.db.rows, ¬r.iiko_id = g.gid)
    (hpid : (g.parent = none ∧ pid = none) ∨
      (∃ p, g.parent = some p ∧ ∃ rp ∈ st.db.rows, rp.iiko_id = p ∧ pid = some rp.id)) :
    ∀ st2, st2 = { st with
        db := (upsert_group st.db (groupCreateOfRemote orgId g pid)).2,
        map := dictInsert st.map g.gid
          (upsert_group st.db (groupCreateOfRemote orgId g pid)).1.id } →
    GInv l st2 ∧
    st2.db.rows = st.db.rows ++ [(upsert_group st.db (groupCreateOfRemote orgId g pid)).1] ∧
    (upsert_group st.db (groupCreateOfRemote orgId g pid)).1.iiko_id = g.gid ∧
    st2.errors = st.errors := by
  intro st2 hst2
  have hgcd : (groupCreateOfRemote orgId g pid).iiko_id = g.gid := rfl
  have hfind : get_group_by_iiko_id st.db (groupCreateOfRemote orgId g pid).iiko_id
      = none := by
    rw [hgcd]
    unfold get_group_by_iiko_id
    exact find?_key_none (fun r : LocalGroup => r.iiko_id) hfresh
  obtain ⟨hrows, hnext, hkey, hid, hpgid⟩ := upsert_group_create_rows hfind
  have hkey' : (upsert_group st.db (groupCreateOfRemote orgId g pid)).1.iiko_id = g.gid :=
    hkey.trans hgcd
  have hnew_bound : ∀ r ∈ st.db.rows, r.id
      < (upsert_group st.db (groupCreateOfRemote orgId g pid)).2.nextId := by
    intro r hr
    rw [hnext]
    exact Nat.lt_succ_of_lt (hinv.next_bound r hr)
  refine ⟨?_, by rw [hst2]; exact hrows, hkey', by rw [hst2]⟩
  constructor
  · -- next_bound
    intro r hr
    rw [hst2] at hr ⊢
    simp only at hr ⊢
    rw [hrows] at hr
    rcases List.mem_append.mp hr with hin | hnew
    · exact hnew_bound r hin
    · simp only [List.mem_singleton] at hnew
      rw [hnew, hid, hnext]
      exact Nat.lt_succ_self _
  · -- ids_nodup
    rw [hst2]
    simp only
    rw [hrows, List.map_append, List.nodup_append]
    refine ⟨hinv.ids_nodup, by simp, ?_⟩
    intro x hx hx2
    simp only [List.map_cons, List.map_nil, List.mem_singleton] at hx2
    obtain ⟨q, hq, hqe⟩ := List.mem_map.mp hx
    have := hinv.next_bound q hq
    rw [hx2, hid] at hqe
    omega
  · -- gids_nodup
    rw [hst2]
    simp only
    rw [hrows, List.map_append, List.nodup_append]
    refine ⟨hinv.gids_nodup, by simp, ?_⟩
    intro x hx hx2
    simp only [List.map_cons, List.map_nil, List.mem_singleton] at hx2
    obtain ⟨q, hq, hqe⟩ := List.mem_map.mp hx
    rw [hx2, hkey'] at hqe
    exact hfresh q hq hqe
  · -- map_eq
    rw [hst2]
    simp only
    rw [hrows, List.map_append]
    have hmkeys : ∀ kv ∈ st.map, ¬kv.1 = g.gid := by
      intro kv hkv
      rw [hinv.map_eq] at hkv
      obtain ⟨q, hq, hqe⟩ := List.mem_map.mp hkv
      rw [← hqe]
      exact hfresh q hq
    rw [dictInsert_fresh _ hmkeys, hinv.map_eq]
    simp [hkey', hid]
  · -- rows_sound
    intro r hr
    rw [hst2] at hr
    simp only at hr
    rw [hrows] at hr
    rcases List.mem_append.mp hr with hin | hnew
    · obtain ⟨g0, hg0, hg0k, hg0p⟩ := hinv.rows_sound r hin
      refine ⟨g0, hg0, hg0k, ?_⟩
      rcases hg0p with hroot | ⟨p, hp, rp, hrp, hrpk, hrpg⟩
      · exact Or.inl hroot
      · refine Or.inr ⟨p, hp, rp, ?_, hrpk, hrpg⟩
        rw [hst2]
        simp only
        rw [hrows]
        exact List.mem_append.mpr (Or.inl hrp)
    · simp only [List.mem_singleton] at hnew
      refine ⟨g, hgl, by rw [hnew, hkey'], ?_⟩
      rcases hpid with ⟨hgp, hpidn⟩ | ⟨p, hgp, rp, hrp, hrpk, hpids⟩
      · refine Or.inl ⟨hgp, ?_⟩
        rw [hnew, hpgid]
        rw [show (groupCreateOfRemote orgId g pid).parent_group_id = pid from rfl, hpidn]
      · refine Or.inr ⟨p, hgp, rp, ?_, hrpk, ?_⟩
        · rw [hst2]
          simp only
          rw [hrows]
          exact List.mem_append.mpr (Or.inl hrp)
        · rw [hnew, hpgid]
          rw [show (groupCreateOfRemote orgId g pid).parent_group_id = pid from rfl, hpids]

/-- Root phase: processing the (fresh, non-deleted) root records preserves
the invariant, only appends rows, stores every processed root, and adds no
row beyond the processed roots. -/
theorem syncRoots_build (orgId : Nat) (l roots : List RemoteGroup) (st : SyncSt)
    (hinv : GInv l st)
    (hsub : ∀ x ∈ roots, x ∈ l ∧ x.parent = none ∧ x.deleted = false)
    (hfresh : ∀ x ∈ roots, ∀ r ∈ st.db.rows, ¬r.iiko_id = x.gid)
    (hnd : (roots.map (fun x => x.gid)).Nodup) :
    GInv l (syncRoots orgId roots st) ∧
    (∀ r ∈ st.db.rows, r ∈ (syncRoots orgId roots st).db.rows) ∧
    (∀ x ∈ roots, ∃ r ∈ (syncRoots orgId roots st).db.rows, r.iiko_id = x.gid) ∧
    (∀ r ∈ (syncRoots orgId roots st).db.rows,
      r ∈ st.db.rows ∨ ∃ x ∈ roots, r.iiko_id = x.gid) := by
  induction roots generalizing st with
  | nil =>
      refine ⟨hinv, fun r hr => hr, ?_, fun r hr => Or.inl hr⟩
      intro x hx
      cases hx
  | cons g rest ih =>
      obtain ⟨hgl, hgroot, hgdel⟩ := hsub g (List.mem_cons_self g rest)
      simp only [List.map_cons, List.nodup_cons] at hnd
      have hstep : processRoot orgId st g = { st with
          db := (upsert_group st.db (groupCreateOfRemote orgId g none)).2,
          map := dictInsert st.map g.gid
            (upsert_group st.db (groupCreateOfRemote orgId g none)).1.id } := by
        unfold processRoot
        rw [if_neg (by rw [hgdel]; exact Bool.false_ne_true)]
      obtain ⟨hinv2, hrows2, hkey2, herr2⟩ := upsert_step hinv hgl
        (hfresh g (List.mem_cons_self g rest))
        (Or.inl ⟨hgroot, rfl⟩) (processRoot orgId st g) hstep
      have hfold : syncRoots orgId (g :: rest) st
          = syncRoots orgId rest (processRoot orgId st g) := by
        rw [syncRoots, List.foldl_cons]
        rfl
      have hfresh2 : ∀ x ∈ rest, ∀ r ∈ (processRoot orgId st g).db.rows,
          ¬r.iiko_id = x.gid := by
        intro x hx r hr
        rw [hrows2] at hr
        rcases List.mem_append.mp hr with hin | hnew
        · exact hfresh x (List.mem_cons_of_mem g hx) r hin
        · simp only [List.mem_singleton] at hnew
          rw [hnew, hkey2]
          intro hgx
          exact hnd.1 (hgx ▸ List.mem_map_of_mem (fun x => x.gid) hx)
      obtain ⟨ihinv, ihmono, ihcover, ihorigin⟩ := ih (processRoot orgId st g) hinv2
        (fun x hx => hsub x (List.mem_cons_of_mem g hx)) hfresh2 hnd.2
      rw [hfold]
      refine ⟨ihinv, ?_, ?_, ?_⟩
      · intro r hr
        refine ihmono r ?_
        rw [hrows2]
        exact List.mem_append.mpr (Or.inl hr)
      · intro x hx
        rcases List.mem_cons.mp hx with rfl | hx2
        · refine ⟨(upsert_group st.db (groupCreateOfRemote orgId x none)).1, ?_, hkey2⟩
          refine ihmono _ ?_
          rw [hrows2]
          simp
        · exact ihcover x hx2
      · intro r hr
        rcases ihorigin r hr with hin | ⟨x, hx, hxk⟩
        · rw [hrows2] at hin
          rcases List.mem_append.mp hin with hin2 | hnew
          · exact Or.inl hin2
          · simp only [List.mem_singleton] at hnew
            exact Or.inr ⟨g, List.mem_cons_self g rest, by rw [hnew, hkey2]⟩
        · exact Or.inr ⟨x, List.mem_cons_of_mem g hx, hxk⟩

/-- One-step unfolding of `depthAux` for a root record. -/
theorem depthAux_succ_none {l : List RemoteGroup} {f : Nat} {g : RemoteGroup}
    (hp : g.parent = none) : depthAux l (f + 1) g = some 0 := by
  rw [show depthAux l (f + 1) g = match g.parent with
      | none => some 0
      | some p => match l.find? (fun h => h.gid == p) with
        | none => none
        | some gp => (depthAux l f gp).map (fun d => d + 1) from rfl, hp]

/-- One-step unfolding of `depthAux` when the parent record is found. -/
theorem depthAux_succ_found {l : List RemoteGroup} {f : Nat} {g : RemoteGroup}
    {p : String} {gp : RemoteGroup}
    (hp : g.parent = some p) (hf : l.find? (fun h => h.gid == p) = some gp) :
    depthAux l (f + 1) g = (depthAux l f gp).map (fun d => d + 1) := by
  rw [show depthAux l (f + 1) g = match g.parent with
      | none => some 0
      | some p => match l.find? (fun h => h.gid == p) with
        | none => none
        | some gp => (depthAux l f gp).map (fun d => d + 1) from rfl, hp]
  show (match l.find? (fun h => h.gid == p) with
    | none => none
    | some gp2 => (depthAux l f gp2).map (fun d => d + 1))
      = (depthAux l f gp).map (fun d => d + 1)
  rw [hf]

/-- One-step unfolding of `depthAux` when the parent record is absent. -/
theorem depthAux_succ_missing {l : List RemoteGroup} {f : Nat} {g : RemoteGroup}
    {p : String}
    (hp : g.parent = some p) (hf : l.find? (fun h => h.gid == p) = none) :
    depthAux l (f + 1) g = none := by
  rw [show depthAux l (f + 1) g = match g.parent with
      | none => some 0
      | some p => match l.find? (fun h => h.gid == p) with
        | none => none
        | some gp => (depthAux l f gp).map (fun d => d + 1) from rfl, hp]
  show (match l.find? (fun h => h.gid == p) with
    | none => none
    | some gp2 => (depthAux l f gp2).map (fun d => d + 1)) = none
  rw [hf]

/-- A fuel-bounded depth is below the fuel. -/
theorem depthAux_lt_fuel {l : List RemoteGroup} {fuel : Nat} {g : RemoteGroup} {d : Nat}
    (h : depthAux l fuel g = some d) : d < fuel := by
  induction fuel generalizing g d with
  | zero => cases h
  | succ f ih =>
      cases hp : g.parent with
      | none =>
          rw [depthAux_succ_none hp] at h
          cases h
          exact Nat.succ_pos f
      | some p =>
          cases hf : l.find? (fun x => x.gid == p) with
          | none => rw [depthAux_succ_missing hp hf] at h; cases h
          | some gp =>
              rw [depthAux_succ_found hp hf] at h
              cases he : depthAux l f gp with
              | none => rw [he] at h; cases h
              | some e =>
                  rw [he] at h
                  simp only [Option.map_some'] at h
                  cases h
                  exact Nat.succ_lt_succ (ih he)

/-- Depth is stable under extra fuel. -/
theorem depthAux_mono {l : List RemoteGroup} {fuel : Nat} {g : RemoteGroup} {e : Nat}
    (h : depthAux l fuel g = some e) : depthAux l (fuel + 1) g = some e := by
  induction fuel generalizing g e with
  | zero => cases h
  | succ f ih =>
      cases hp : g.parent with
      | none =>
          rw [depthAux_succ_none hp] at h
          rw [depthAux_succ_none hp]
          exact h
      | some p =>
          cases hf : l.find? (fun x => x.gid == p) with
          | none => rw [depthAux_succ_missing hp hf] at h; cases h
          | some gp =>
              rw [depthAux_succ_found hp hf] at h
              rw [depthAux_succ_found hp hf]
              cases he : depthAux l f gp with
              | none => rw [he] at h; cases h
              | some e2 =>
                  rw [he] at h
                  rw [ih he]
                  exact h

/-- A record of positive depth has a parent reference. -/
theorem depthAux_pos_parent {l : List RemoteGroup} {fuel : Nat} {g : RemoteGroup} {d : Nat}
    (h : depthAux l fuel g = some d) (hd : 1 ≤ d) : ∃ p, g.parent = some p := by
  cases fuel with
  | zero => cases h
  | succ f =>
      cases hp : g.parent with
      | none =>
          rw [depthAux_succ_none hp] at h
          cases h
          cases hd
      | some p => exact ⟨p, rfl⟩

/-- Child pass: given the invariant, fresh non-deleted children with distinct
external ids, and every depth-`≤ k` record already stored, one pass preserves
the invariant, only appends rows, resolves or defers every input child, adds
no row beyond the resolved children, defers only children of depth `≥ k+2`,
and keeps the deferred ids distinct and the `errors` list unchanged. -/
theorem childPass_build (orgId : Nat) (l todo : List RemoteGroup) (st : SyncSt) (k : Nat)
    (hinv : GInv l st)
    (htodo : ∀ x ∈ todo, x ∈ l ∧ x.deleted = false ∧ x.parent.isSome = true)
    (hfresh : ∀ x ∈ todo, ∀ r ∈ st.db.rows, ¬r.iiko_id = x.gid)
    (hndtodo : (todo.map (fun x => x.gid)).Nodup)
    (hldone : ∀ x ∈ l, ∀ d, depthAux l (maxChildIterations + 1) x = some d → d ≤ k →
        ∃ r ∈ st.db.rows, r.iiko_id = x.gid) :
    GInv l (childPass orgId todo st).1 ∧
    (∀ r ∈ st.db.rows, r ∈ (childPass orgId todo st).1.db.rows) ∧
    (∀ x ∈ todo, (∃ r ∈ (childPass orgId todo st).1.db.rows, r.iiko_id = x.gid)
        ∨ x ∈ (childPass orgId todo st).2) ∧
    (∀ r ∈ (childPass orgId todo st).1.db.rows,
        r ∈ st.db.rows
          ∨ ∃ y ∈ todo, ¬y ∈ (childPass orgId todo st).2 ∧ r.iiko_id = y.gid) ∧
    (∀ x ∈ (childPass orgId todo st).2, ∀ d,
        depthAux l (maxChildIterations + 1) x = some d → k + 2 ≤ d) ∧
    ((childPass orgId todo st).2.map (fun x => x.gid)).Nodup ∧
    (childPass orgId todo st).1.errors = st.errors := by
  induction todo generalizing st with
  | nil =>
      refine ⟨hinv, fun r hr => hr, ?_, fun r hr => Or.inl hr, ?_, List.nodup_nil, rfl⟩
      · intro x hx
        cases hx
      · intro x hx
        cases hx
  | cons h rest ih =>
      obtain ⟨hhl, hhdel, hhpar⟩ := htodo h (List.mem_cons_self h rest)
      simp only [List.map_cons, List.nodup_cons] at hndtodo
      have hne : ¬h.deleted = true := by rw [hhdel]; exact Bool.false_ne_true
      have hnotrest : h ∉ rest := fun hc =>
        hndtodo.1 (List.mem_map_of_mem (fun x => x.gid) hc)
      cases hp : h.parent with
      | none => rw [hp] at hhpar; cases hhpar
      | some p =>
          cases hdg : dictGet st.map p with
          | some pid =>
              have hdg2 := hdg
              rw [dictGet_rows hinv] at hdg2
              cases hf : st.db.rows.find? (fun r => r.iiko_id == p) with
              | none => rw [hf] at hdg2; cases hdg2
              | some rp =>
                  rw [hf] at hdg2
                  simp only [Option.map_some'] at hdg2
                  have hrpmem : rp ∈ st.db.rows := List.mem_of_find?_eq_some hf
                  have hrpk : rp.iiko_id = p := by simpa using List.find?_some hf
                  have hpid : pid = rp.id := by simpa using hdg2.symm
                  have hbind : h.parent.bind (dictGet st.map) = some pid := by
                    rw [hp]
                    simpa using hdg
                  have hstep : childPass orgId (h :: rest) st
                      = childPass orgId rest (resolveStep orgId st h pid) := by
                    simp only [childPass]
                    rw [if_neg hne, hbind]
                    rfl
                  obtain ⟨hinv2, hrows2, hkey2, herr2⟩ := upsert_step hinv hhl
                    (hfresh h (List.mem_cons_self h rest))
                    (Or.inr ⟨p, hp, rp, hrpmem, hrpk, by rw [hpid]⟩)
                    (resolveStep orgId st h pid) rfl
                  have hfresh2 : ∀ x ∈ rest, ∀ r ∈ (resolveStep orgId st h pid).db.rows,
                      ¬r.iiko_id = x.gid := by
                    intro x hx r hr
                    rw [hrows2] at hr
                    rcases List.mem_append.mp hr with hin | hnew
                    · exact hfresh x (List.mem_cons_of_mem h hx) r hin
                    · simp only [List.mem_singleton] at hnew
                      rw [hnew, hkey2]
                      intro hgx
                      exact hndtodo.1 (hgx ▸ List.mem_map_of_mem (fun x => x.gid) hx)
                  have hldone2 : ∀ x ∈ l, ∀ d,
                      depthAux l (maxChildIterations + 1) x = some d → d ≤ k →
                      ∃ r ∈ (resolveStep orgId st h pid).db.rows, r.iiko_id = x.gid := by
                    intro x hx d hd hdk
                    obtain ⟨r, hr, hrk⟩ := hldone x hx d hd hdk
                    refine ⟨r, ?_, hrk⟩
                    rw [hrows2]
                    exact List.mem_append.mpr (Or.inl hr)
                  obtain ⟨ihinv, ihmono, ihresolve, ihorigin, ihdepth, ihnd, iherr⟩ :=
                    ih (resolveStep orgId st h pid) hinv2
                      (fun x hx => htodo x (List.mem_cons_of_mem h hx))
                      hfresh2 hndtodo.2 hldone2
                  rw [hstep]
                  refine ⟨ihinv, ?_, ?_, ?_, ihdepth, ihnd, iherr.trans herr2⟩
                  · intro r hr
                    refine ihmono r ?_
                    rw [hrows2]
                    exact List.mem_append.mpr (Or.inl hr)
                  · intro x hx
                    rcases List.mem_cons.mp hx with he | hx2
                    · subst he
                      refine Or.inl ⟨(upsert_group st.db
                          (groupCreateOfRemote orgId x (some pid))).1, ?_, hkey2⟩
                      refine ihmono _ ?_
                      rw [hrows2]
                      simp
                    · exact ihresolve x hx2
                  · intro r hr
                    rcases ihorigin r hr with hin | ⟨y, hy, hynot, hyk⟩
                    · rw [hrows2] at hin
                      rcases List.mem_append.mp hin with hin2 | hnew
                      · exact Or.inl hin2
                      · simp only [List.mem_singleton] at hnew
                        refine Or.inr ⟨h, List.mem_cons_self h rest, ?_, ?_⟩
                        · intro hc
                          exact hnotrest (childPass_rem_subset orgId rest _ h hc)
                        · rw [hnew]
                          exact hkey2
                    · exact Or.inr ⟨y, List.mem_cons_of_mem h hy, hynot, hyk⟩
          | none =>
              have hbind : h.parent.bind (dictGet st.map) = none := by
                rw [hp]
                simpa using hdg
              have hstep : childPass orgId (h :: rest) st
                  = ((childPass orgId rest st).1, h :: (childPass orgId rest st).2) := by
                simp only [childPass]
                rw [if_neg hne, hbind]
              obtain ⟨ihinv, ihmono, ihresolve, ihorigin, ihdepth, ihnd, iherr⟩ :=
                ih st hinv (fun x hx => htodo x (List.mem_cons_of_mem h hx))
                  (fun x hx => hfresh x (List.mem_cons_of_mem h hx)) hndtodo.2 hldone
              rw [hstep]
              refine ⟨ihinv, ihmono, ?_, ?_, ?_, ?_, iherr⟩
              · intro x hx
                rcases List.mem_cons.mp hx with he | hx2
                · subst he
                  exact Or.inr (List.mem_cons_self _ _)
                · rcases ihresolve x hx2 with hrow | hmem
                  · exact Or.inl hrow
                  · exact Or.inr (List.mem_cons_of_mem _ hmem)
              · intro r hr
                rcases ihorigin r hr with hin | ⟨y, hy, hynot, hyk⟩
                · exact Or.inl hin
                · refine Or.inr ⟨y, List.mem_cons_of_mem _ hy, ?_, hyk⟩
                  intro hc
                  rcases List.mem_cons.mp hc with he | hm
                  · exact hnotrest (he ▸ hy)
                  · exact hynot hm
              · intro x hx d hd
                rcases List.mem_cons.mp hx with he | hx2
                · subst he
                  by_cases hdk : k + 2 ≤ d
                  · exact hdk
                  · exfalso
                    cases hfl : l.find? (fun y => y.gid == p) with
                    | none =>
                        rw [show maxChildIterations + 1 = maxChildIterations + 1 from rfl,
                          depthAux_succ_missing hp hfl] at hd
                        cases hd
                    | some gp =>
                        rw [depthAux_succ_found hp hfl] at hd
                        cases hdp : depthAux l maxChildIterations gp with
                        | none => rw [hdp] at hd; cases hd
                        | some e =>
                            rw [hdp] at hd
                            simp only [Option.map_some'] at hd
                            have hde : e + 1 = d := by simpa using hd
                            have hgpl : gp ∈ l := List.mem_of_find?_eq_some hfl
                            have hgpk : gp.gid = p := by simpa using List.find?_some hfl
                            have he11 : depthAux l (maxChildIterations + 1) gp = some e :=
                              depthAux_mono hdp
                            have hek : e ≤ k := by omega
                            obtain ⟨rr, hrr, hrrk⟩ := hldone gp hgpl e he11 hek
                            have hsome : ¬dictGet st.map p = none := by
                              rw [dictGet_rows hinv]
                              intro hcon
                              rw [Option.map_eq_none'] at hcon
                              have := List.find?_eq_none.mp hcon rr hrr
                              rw [hrrk, hgpk] at this
                              simp at this
                            exact hsome hdg
                · exact ihdepth x hx2 d hd
              · simp only [List.map_cons, List.nodup_cons]
                refine ⟨?_, ihnd⟩
                intro hc
                obtain ⟨y, hy, hye⟩ := List.mem_map.mp hc
                have hyrest := childPass_rem_subset orgId rest st y hy
                exact hndtodo.1 (hye ▸ List.mem_map_of_mem (fun x => x.gid) hyrest)

/-- Child loop: starting from a state holding every record of depth `≤ k`,
with every unstored child still in the worklist and enough fuel for the
deepest record, the loop stores every child record of the input, preserving
the invariant. -/
theorem childLoop_build (orgId : Nat) (l : List RemoteGroup) (fuel : Nat)
    (rem : List RemoteGroup) (st : SyncSt) (k : Nat)
    (hinv : GInv l st)
    (hrem : ∀ x ∈ rem, x ∈ l ∧ x.deleted = false ∧ x.parent.isSome = true)
    (hfresh : ∀ x ∈ rem, ∀ r ∈ st.db.rows, ¬r.iiko_id = x.gid)
    (hndrem : (rem.map (fun x => x.gid)).Nodup)
    (hldone : ∀ x ∈ l, ∀ d, depthAux l (maxChildIterations + 1) x = some d → d ≤ k →
        ∃ r ∈ st.db.rows, r.iiko_id = x.gid)
    (hcover : ∀ x ∈ l, x.parent.isSome = true →
        (∃ r ∈ st.db.rows, r.iiko_id = x.gid) ∨ x ∈ rem)
    (hdepthall : ∀ x ∈ l, ∃ d, depthAux l (maxChildIterations + 1) x = some d ∧ d ≤ k + fuel) :
    GInv l (childLoop orgId fuel rem st).1 ∧
    (∀ r ∈ st.db.rows, r ∈ (childLoop orgId fuel rem st).1.db.rows) ∧
    (∀ x ∈ l, x.parent.isSome = true →
        ∃ r ∈ (childLoop orgId fuel rem st).1.db.rows, r.iiko_id = x.gid) ∧
    (childLoop orgId fuel rem st).1.errors = st.errors := by
  induction fuel generalizing rem st k with
  | zero =>
      refine ⟨hinv, fun r hr => hr, ?_, rfl⟩
      intro x hx hxpar
      obtain ⟨d, hd, hdk⟩ := hdepthall x hx
      exact hldone x hx d hd (by omega)
  | succ n ih =>
      rw [childLoop]
      by_cases hr : rem.isEmpty
      · rw [if_pos hr]
        refine ⟨hinv, fun r hr2 => hr2, ?_, rfl⟩
        intro x hx hxpar
        rcases hcover x hx hxpar with hrow | hmem
        · exact hrow
        · rw [List.isEmpty_iff] at hr
          rw [hr] at hmem
          cases hmem
      · rw [if_neg hr]
        obtain ⟨pinv, pmono, presolve, porigin, pdepth, pnd, perr⟩ :=
          childPass_build orgId l rem st k hinv hrem hfresh hndrem hldone
        have hsub := childPass_rem_subset orgId rem st
        have hldone2 : ∀ x ∈ l, ∀ d, depthAux l (maxChildIterations + 1) x = some d →
            d ≤ k + 1 → ∃ r ∈ (childPass orgId rem st).1.db.rows, r.iiko_id = x.gid := by
          intro x hx d hd hdk
          by_cases hdk0 : d ≤ k
          · obtain ⟨r, hr2, hrk⟩ := hldone x hx d hd hdk0
            exact ⟨r, pmono r hr2, hrk⟩
          · have hd1 : 1 ≤ d := by omega
            obtain ⟨p, hp⟩ := depthAux_pos_parent hd hd1
            have hxpar : x.parent.isSome = true := by rw [hp]; rfl
            rcases hcover x hx hxpar with ⟨r, hr2, hrk⟩ | hmem
            · exact ⟨r, pmono r hr2, hrk⟩
            · rcases presolve x hmem with hrow | hrem2
              · exact hrow
              · have := pdepth x hrem2 d hd
                omega
        have hfresh2 : ∀ x ∈ (childPass orgId rem st).2,
            ∀ r ∈ (childPass orgId rem st).1.db.rows, ¬r.iiko_id = x.gid := by
          intro x hx r hr2 hrx
          rcases porigin r hr2 with hin | ⟨y, hy, hynot, hyk⟩
          · exact hfresh x (hsub x hx) r hin hrx
          · have hxy : x = y := List.inj_on_of_nodup_map hndrem (hsub x hx) hy
              (by rw [← hrx, hyk])
            exact hynot (hxy ▸ hx)
        have hcover2 : ∀ x ∈ l, x.parent.isSome = true →
            (∃ r ∈ (childPass orgId rem st).1.db.rows, r.iiko_id = x.gid)
              ∨ x ∈ (childPass orgId rem st).2 := by
          intro x hx hxpar
          rcases hcover x hx hxpar with ⟨r, hr2, hrk⟩ | hmem
          · exact Or.inl ⟨r, pmono r hr2, hrk⟩
          · exact presolve x hmem
        have hdepthall2 : ∀ x ∈ l, ∃ d, depthAux l (maxChildIterations + 1) x = some d ∧
            d ≤ (k + 1) + n := by
          intro x hx
          obtain ⟨d, hd, hdk⟩ := hdepthall x hx
          exact ⟨d, hd, by omega⟩
        obtain ⟨linv, lmono, lcomplete, lerr⟩ := ih (childPass orgId rem st).2
          (childPass orgId rem st).1 (k + 1) pinv
          (fun x hx => hrem x (hsub x hx)) hfresh2 pnd hldone2 hcover2 hdepthall2
        refine ⟨linv, ?_, lcomplete, lerr.trans perr⟩
        intro r hr2
        exact lmono r (pmono r hr2)

/-- A record of depth zero is a root. -/
theorem depthAux_zero_root {l : List RemoteGroup} {f : Nat} {g : RemoteGroup}
    (h : depthAux l (f + 1) g = some 0) : g.parent = none := by
  cases hp : g.parent with
  | none => rfl
  | some p =>
      cases hf : l.find? (fun y => y.gid == p) with
      | none =>
          rw [depthAux_succ_missing hp hf] at h
          cases h
      | some gp =>
          rw [depthAux_succ_found hp hf] at h
          cases hdp : depthAux l f gp with
          | none => rw [hdp] at h; cases h
          | some e =>
              rw [hdp] at h
              simp only [Option.map_some'] at h
              cases h

/-- Main correctness of the group sync on an empty store: for a well-formed
input, the final external-id-to-parent view coincides with the declarative
parent mapping of the input itself (every record stored exactly once, parent
pointers resolved to the declared remote parents). -/
theorem sync_groups_canonical (orgId : Nat) (l : List RemoteGroup)
    (hwf : WellFormedGroups l) :
    ∀ ext, extParentView (sync_groups orgId l emptySyncSt).1.db ext
      = canonicalParent l ext := by
  obtain ⟨hnd, hdel, hdepth⟩ := hwf
  have hsg : sync_groups orgId l emptySyncSt
      = childLoop orgId maxChildIterations (l.filter (fun g => g.parent.isSome))
          (syncRoots orgId (l.filter (fun g => g.parent.isNone)) emptySyncSt) := rfl
  have hndroots : ((l.filter (fun g => g.parent.isNone)).map (fun x => x.gid)).Nodup :=
    (hnd.sublist ((List.filter_sublist l).map (fun x => x.gid)))
  have hndchildren : ((l.filter (fun g => g.parent.isSome)).map (fun x => x.gid)).Nodup :=
    (hnd.sublist ((List.filter_sublist l).map (fun x => x.gid)))
  have hsubroots : ∀ x ∈ l.filter (fun g => g.parent.isNone),
      x ∈ l ∧ x.parent = none ∧ x.deleted = false := by
    intro x hx
    have hxl := (List.mem_filter.mp hx).1
    have hxroot := (List.mem_filter.mp hx).2
    exact ⟨hxl, Option.isNone_iff_eq_none.mp (by simpa using hxroot), hdel x hxl⟩
  obtain ⟨inv1, mono1, cover1, origin1⟩ := syncRoots_build orgId l
    (l.filter (fun g => g.parent.isNone)) emptySyncSt (GInv_empty l) hsubroots
    (fun x _ r hr => absurd hr (List.not_mem_nil r)) hndroots
  have hchildmem : ∀ x ∈ l.filter (fun g => g.parent.isSome),
      x ∈ l ∧ x.deleted = false ∧ x.parent.isSome = true := by
    intro x hx
    have hxl := (List.mem_filter.mp hx).1
    exact ⟨hxl, hdel x hxl, (List.mem_filter.mp hx).2⟩
  have hfresh1 : ∀ x ∈ l.filter (fun g => g.parent.isSome),
      ∀ r ∈ (syncRoots orgId (l.filter (fun g => g.parent.isNone))
        emptySyncSt).db.rows, ¬r.iiko_id = x.gid := by
    intro x hx r hr hrx
    rcases origin1 r hr with hin | ⟨y, hy, hyk⟩
    · exact absurd hin (List.not_mem_nil r)
    · have hyl := (List.mem_filter.mp hy).1
      have hyroot := (hsubroots y hy).2.1
      have hxl := (List.mem_filter.mp hx).1
      have hxpar := (List.mem_filter.mp hx).2
      have hxy : y = x := List.inj_on_of_nodup_map hnd hyl hxl (by rw [← hyk, ← hrx])
      rw [hxy] at hyroot
      rw [hyroot] at hxpar
      cases hxpar
  have hldone0 : ∀ x ∈ l, ∀ d, depthAux l (maxChildIterations + 1) x = some d → d ≤ 0 →
      ∃ r ∈ (syncRoots orgId (l.filter (fun g => g.parent.isNone))
        emptySyncSt).db.rows, r.iiko_id = x.gid := by
    intro x hx d hd hd0
    have hd00 : d = 0 := by omega
    rw [hd00] at hd
    have hxroot : x.parent = none := depthAux_zero_root hd
    refine cover1 x ?_
    exact List.mem_filter.mpr ⟨hx, by rw [hxroot]; rfl⟩
  have hcover0 : ∀ x ∈ l, x.parent.isSome = true →
      (∃ r ∈ (syncRoots orgId (l.filter (fun g => g.parent.isNone))
        emptySyncSt).db.rows, r.iiko_id = x.gid)
        ∨ x ∈ l.filter (fun g => g.parent.isSome) := by
    intro x hx hxpar
    exact Or.inr (List.mem_filter.mpr ⟨hx, hxpar⟩)
  have hdepthall0 : ∀ x ∈ l, ∃ d, depthAux l (maxChildIterations + 1) x = some d ∧
      d ≤ 0 + maxChildIterations := by
    intro x hx
    have hds := hdepth x hx
    obtain ⟨d, hd⟩ := Option.isSome_iff_exists.mp hds
    refine ⟨d, hd, ?_⟩
    have := depthAux_lt_fuel hd
    omega
  obtain ⟨finv, fmono, fcomplete, ferr⟩ := childLoop_build orgId l maxChildIterations
    (l.filter (fun g => g.parent.isSome))
    (syncRoots orgId (l.filter (fun g => g.parent.isNone)) emptySyncSt) 0
    inv1 hchildmem hfresh1 hndchildren hldone0 hcover0 hdepthall0
  have hcomplete : ∀ x ∈ l, ∃ r ∈ (sync_groups orgId l emptySyncSt).1.db.rows,
      r.iiko_id = x.gid := by
    intro x hx
    rw [hsg]
    cases hxp : x.parent with
    | none =>
        obtain ⟨r, hr, hrk⟩ := cover1 x (List.mem_filter.mpr ⟨hx, by rw [hxp]; rfl⟩)
        exact ⟨r, fmono r hr, hrk⟩
    | some p => exact fcomplete x hx (by rw [hxp]; rfl)
  have hfinv : GInv l (sync_groups orgId l emptySyncSt).1 := by
    rw [hsg]
    exact finv
  intro ext
  by_cases hex : ∃ x ∈ l, x.gid = ext
  · obtain ⟨x, hx, hxk⟩ := hex
    have hcanon : canonicalParent l ext = some x.parent := by
      rw [canonicalParent, find?_key_unique (fun g => g.gid) hnd hx hxk]
      rfl
    obtain ⟨r0, hr0, hr0k⟩ := hcomplete x hx
    have hfindrow : (sync_groups orgId l emptySyncSt).1.db.rows.find?
        (fun r => r.iiko_id == ext) = some r0 :=
      find?_key_unique (fun r => r.iiko_id) hfinv.gids_nodup hr0 (hr0k.trans hxk)
    rw [extParentView, hfindrow, hcanon]
    obtain ⟨g, hg, hgk, hgp⟩ := hfinv.rows_sound r0 hr0
    have hgx : g = x := List.inj_on_of_nodup_map hnd hg hx (by rw [← hgk]; exact hr0k)
    rcases hgp with ⟨hgroot, hr0p⟩ | ⟨p, hgpar, rp, hrp, hrpk, hr0p⟩
    · rw [← hgx, hgroot]
      simp [parentExtOf, hr0p]
    · rw [← hgx, hgpar]
      have hfindpar : (sync_groups orgId l emptySyncSt).1.db.rows.find?
          (fun q => q.id == rp.id) = some rp :=
        find?_key_unique (fun q => q.id) hfinv.ids_nodup hrp rfl
      simp [parentExtOf, hr0p, hfindpar, hrpk]
  · have hcanon : canonicalParent l ext = none := by
      rw [canonicalParent,
        find?_key_none (fun g : RemoteGroup => g.gid)
          (fun x hx hxk => hex ⟨x, hx, hxk⟩)]
      rfl
    have hview : (sync_groups orgId l emptySyncSt).1.db.rows.find?
        (fun r => r.iiko_id == ext) = none := by
      refine find?_key_none (fun r : LocalGroup => r.iiko_id) ?_
      intro r hr hrk
      obtain ⟨g, hg, hgk, -⟩ := hfinv.rows_sound r hr
      exact hex ⟨g, hg, by rw [← hgk]; exact hrk⟩
    rw [extParentView, hview, hcanon]
    rfl

/-- Lookup by a distinct key is permutation-invariant. -/
theorem find?_key_perm {α β : Type} [BEq β] [LawfulBEq β] (key : α → β)
    {l1 l2 : List α} (h : l1.Perm l2) (hnd : (l1.map key).Nodup) (k : β) :
    l1.find? (fun x => key x == k) = l2.find? (fun x => key x == k) := by
  have hnd2 : (l2.map key).Nodup := ((h.map key).nodup_iff).mp hnd
  by_cases hex : ∃ a ∈ l1, key a = k
  · obtain ⟨a, ha, hak⟩ := hex
    rw [find?_key_unique key hnd ha hak,
      find?_key_unique key hnd2 (h.mem_iff.mp ha) hak]
  · rw [find?_key_none key (fun a ha hak => hex ⟨a, ha, hak⟩),
      find?_key_none key (fun a ha hak => hex ⟨a, h.mem_iff.mpr ha, hak⟩)]

/-- The fuel-bounded depth is permutation-invariant for distinct-id inputs. -/
theorem depthAux_perm {l1 l2 : List RemoteGroup} (h : l1.Perm l2)
    (hnd : (l1.map (fun g => g.gid)).Nodup) :
    ∀ fuel g, depthAux l1 fuel g = depthAux l2 fuel g := by
  intro fuel
  induction fuel with
  | zero => intro g; rfl
  | succ f ih =>
      intro g
      cases hp : g.parent with
      | none => rw [depthAux_succ_none hp, depthAux_succ_none hp]
      | some p =>
          have hfind := find?_key_perm (fun g => g.gid) h hnd p
          cases hf : l1.find? (fun x => x.gid == p) with
          | none =>
              rw [depthAux_succ_missing hp hf,
                depthAux_succ_missing hp (hfind ▸ hf)]
          | some gp =>
              rw [depthAux_succ_found hp hf,
                depthAux_succ_found hp (hfind ▸ hf), ih gp]

/-- The declarative parent mapping is permutation-invariant for distinct-id
inputs. -/
theorem canonicalParent_perm {l1 l2 : List RemoteGroup} (h : l1.Perm l2)
    (hnd : (l1.map (fun g => g.gid)).Nodup) (ext : String) :
    canonicalParent l1 ext = canonicalParent l2 ext := by
  rw [canonicalParent, canonicalParent, find?_key_perm (fun g => g.gid) h hnd ext]

/-- Well-formedness is permutation-invariant. -/
theorem WellFormedGroups_perm {l1 l2 : List RemoteGroup}
    (hwf : WellFormedGroups l1) (h : l1.Perm l2) : WellFormedGroups l2 := by
  obtain ⟨hnd, hdel, hdepth⟩ := hwf
  refine ⟨((h.map (fun g => g.gid)).nodup_iff).mp hnd,
    fun g hg => hdel g (h.mem_iff.mpr hg), ?_⟩
  intro g hg
  rw [← depthAux_perm h hnd (maxChildIterations + 1) g]
  exact hdepth g (h.mem_iff.mpr hg)

/-- C1 amended: for a well-formed remote group set — distinct external ids,
nothing deleted, every record within `max_iterations = 10` parent-steps of a
root — the multi-pass resolution started on an empty store yields, for every
permutation of the input list, the same final external-id-to-parent mapping,
namely the input's own declarative parent mapping (which is also what
processing roots then children in dependency order yields, dependency order
being one such permutation). -/
theorem sync_groups_order_independent (orgId : Nat) (l1 l2 : List RemoteGroup)
    (hperm : l1.Perm l2) (hwf : WellFormedGroups l1) :
    ∀ ext, extParentView (sync_groups orgId l1 emptySyncSt).1.db ext
        = extParentView (sync_groups orgId l2 emptySyncSt).1.db ext ∧
      extParentView (sync_groups orgId l1 emptySyncSt).1.db ext
        = canonicalParent l1 ext := by
  have hwf2 := WellFormedGroups_perm hwf hperm
  have h1 := sync_groups_canonical orgId l1 hwf
  have h2 := sync_groups_canonical orgId l2 hwf2
  intro ext
  have hcan := canonicalParent_perm hperm hwf.1 ext
  exact ⟨(h1 ext).trans (hcan.trans (h2 ext).symm), h1 ext⟩

/-- C1 witness: the spec's scenario — child `g2` before root `g1` — gives the
same mapping as the dependency order, and `g2`'s stored parent pointer is
`g1`'s local id. -/
theorem sync_groups_order_independent_witness :
    ([groupG2, groupG1].Perm [groupG1, groupG2]) ∧
    WellFormedGroups [groupG2, groupG1] ∧
    extParentView (sync_groups 0 [groupG2, groupG1] emptySyncSt).1.db "g2"
      = extParentView (sync_groups 0 [groupG1, groupG2] emptySyncSt).1.db "g2" ∧
    extParentView (sync_groups 0 [groupG2, groupG1] emptySyncSt).1.db "g2"
      = some (some "g1") ∧
    ((sync_groups 0 [groupG2, groupG1] emptySyncSt).1.db.rows.find?
        (fun r => r.iiko_id == "g2")).map (fun r => r.parent_group_id)
      = some (some 0) ∧
    ((sync_groups 0 [groupG2, groupG1] emptySyncSt).1.db.rows.find?
        (fun r => r.iiko_id == "g1")).map (fun r => r.id) = some 0 :=
  ⟨by decide, by decide,
   (sync_groups_order_independent 0 [groupG2, groupG1] [groupG1, groupG2]
     (by decide) (by decide) "g2").1,
   by decide, by decide, by decide⟩

/-- C1 counterexample: the two permutations of one 12-record input produce
different final mappings — in dependency order `c11` is stored with parent
`c10`, while with the children reversed the pass cap (10) is reached first
and `c11` is never stored.  Multi-pass resolution is therefore not
order-independent as claimed. -/
theorem sync_groups_pass_cap_breaks_order_independence :
    chainDep.Perm chainRev ∧
    extParentView (sync_groups 0 chainDep emptySyncSt).1.db "c11"
      = some (some "c10") ∧
    extParentView (sync_groups 0 chainRev emptySyncSt).1.db "c11" = none ∧
    ¬(extParentView (sync_groups 0 chainDep emptySyncSt).1.db "c11"
        = extParentView (sync_groups 0 chainRev emptySyncSt).1.db "c11") := by
  refine ⟨by decide, by decide, by decide, by decide⟩

end HeatStandard
